import Mathlib

/-!
# gotiny: the type-identity registry (`register.go`)

A shallow embedding of `register.go`: the signature generator `getName`, the
hasher `crc` / `newNameType`, the registry `type2name` / `name2type` with
`RegisterName`, `registerType`, `Register` and `getNameOfType`, and the
identifier codec `encNameType` / `decNameType`.

Conventions of the embedding.

* A Go `string` / `[]byte` is a list of bytes, each byte a natural number
  (`Bytes`). `str` turns an ASCII literal of the source into its bytes.
* A `reflect.Type` is a descriptor tree (`RType`): `nil`, or package path, name
  and a kind together with the constituents that kind has in `reflect`.
* The two global maps are the fields of `Registry`; a Go map is the function
  from keys to `Option` values (the source only looks keys up and assigns).
* `Encoder`, `Decoder`, `encUint32` and `decUint32` are declared outside
  `register.go`; their definitions here follow the specification and say so.
* A `panic` is a value of `Panic`. Code that touches the registry returns the
  pair of its result and the registry as it is when the call ends, so that the
  state left behind by a panicking call is part of the model.
-/

namespace Gotiny

/-- A Go byte string: the bytes of a `string` or `[]byte`, each a number below 256. -/
abbrev Bytes := List Nat

/-- The bytes of an ASCII string literal of the source. -/
def str (s : String) : Bytes := s.toList.map Char.toNat

/-- The kinds of `reflect.Kind`, in the order of the Go declaration
(`reflect.Ptr` is the source's name for the pointer kind). -/
inductive Kind where
  | Invalid | Bool | Int | Int8 | Int16 | Int32 | Int64
  | Uint | Uint8 | Uint16 | Uint32 | Uint64 | Uintptr
  | Float32 | Float64 | Complex64 | Complex128
  | Array | Chan | Func | Interface | Map | Ptr | Slice | String | Struct
  | UnsafePointer
  deriving DecidableEq, Repr

/-- The kinds that carry no constituent type. -/
inductive Scalar where
  | Bool | Int | Int8 | Int16 | Int32 | Int64
  | Uint | Uint8 | Uint16 | Uint32 | Uint64 | Uintptr
  | Float32 | Float64 | Complex64 | Complex128 | String | UnsafePointer
  deriving DecidableEq, Repr

/-- The `reflect.Kind` of a constituent-free kind. -/
def Scalar.Kind : Scalar → Gotiny.Kind
  | .Bool => .Bool | .Int => .Int | .Int8 => .Int8 | .Int16 => .Int16
  | .Int32 => .Int32 | .Int64 => .Int64 | .Uint => .Uint | .Uint8 => .Uint8
  | .Uint16 => .Uint16 | .Uint32 => .Uint32 | .Uint64 => .Uint64
  | .Uintptr => .Uintptr | .Float32 => .Float32 | .Float64 => .Float64
  | .Complex64 => .Complex64 | .Complex128 => .Complex128
  | .String => .String | .UnsafePointer => .UnsafePointer

mutual
/-- A `reflect.Type` value: the nil interface, or a type with its `PkgPath()`,
its `Name()` and its kind-specific shape. -/
inductive RType where
  | nil : RType
  | mk (pkgPath name : Bytes) (shape : Shape) : RType
  deriving DecidableEq
/-- The kind of a type with what `reflect` exposes for that kind: `Elem()`,
`Len()`, `Key()`, the fields, the methods, the `In(i)` and the `Out(i)`. -/
inductive Shape where
  | Invalid : Shape
  | Scalar (k : Scalar) : Shape
  | Ptr (elem : RType) : Shape
  | Array (len : Nat) (elem : RType) : Shape
  | Slice (elem : RType) : Shape
  | Chan (elem : RType) : Shape
  | Struct (fields : Fields) : Shape
  | Map (key elem : RType) : Shape
  | Interface (methods : Methods) : Shape
  | Func (ins outs : Types) : Shape
  deriving DecidableEq
/-- The `reflect.StructField`s `rt.Field(0)`, `rt.Field(1)`, ... of a struct:
`Name`, `Anonymous` and `Type` (here `typ`) of each. -/
inductive Fields where
  | nil : Fields
  | cons (Name : Bytes) (Anonymous : Bool) (typ : RType) (rest : Fields) : Fields
  deriving DecidableEq
/-- The `reflect.Method`s `rt.Method(0)`, `rt.Method(1)`, ... of an interface:
`Name` and `Type` (here `typ`) of each. -/
inductive Methods where
  | nil : Methods
  | cons (Name : Bytes) (typ : RType) (rest : Methods) : Methods
  deriving DecidableEq
/-- A sequence of types: the `rt.In(i)` or the `rt.Out(i)` of a function type. -/
inductive Types where
  | nil : Types
  | cons (t : RType) (rest : Types) : Types
  deriving DecidableEq
end

/-- The method `rt.Kind()` on the shape of a non-nil type. -/
def Shape.Kind : Shape → Gotiny.Kind
  | .Invalid => .Invalid
  | .Scalar k => k.Kind
  | .Ptr _ => .Ptr
  | .Array _ _ => .Array
  | .Slice _ => .Slice
  | .Chan _ => .Chan
  | .Struct _ => .Struct
  | .Map _ _ => .Map
  | .Interface _ => .Interface
  | .Func _ _ => .Func

/-- The fields of a struct as a list of `(Name, Anonymous, Type)`. -/
def Fields.toList : Fields → List (Bytes × Bool × RType)
  | .nil => []
  | .cons n a t rest => (n, a, t) :: rest.toList

/-- The struct fields with the given list of `(Name, Anonymous, Type)`. -/
def Fields.ofList : List (Bytes × Bool × RType) → Fields
  | [] => .nil
  | (n, a, t) :: rest => .cons n a t (Fields.ofList rest)

/-- The methods of an interface as a list of `(Name, Type)`. -/
def Methods.toList : Methods → List (Bytes × RType)
  | .nil => []
  | .cons n t rest => (n, t) :: rest.toList

/-- The interface methods with the given list of `(Name, Type)`. -/
def Methods.ofList : List (Bytes × RType) → Methods
  | [] => .nil
  | (n, t) :: rest => .cons n t (Methods.ofList rest)

/-- A sequence of types as a list. -/
def Types.toList : Types → List RType
  | .nil => []
  | .cons t rest => t :: rest.toList

/-- The sequence of types with the given list. -/
def Types.ofList : List RType → Types
  | [] => .nil
  | t :: rest => .cons t (Types.ofList rest)

/-- The method `rt.NumField()` of a struct type. -/
def Fields.NumField (fs : Fields) : Nat := fs.toList.length

/-- The method `rt.NumMethod()` of an interface type. -/
def Methods.NumMethod (ms : Methods) : Nat := ms.toList.length

/-- The methods `rt.NumIn()` and `rt.NumOut()` on the parameters and on the results of
a function type. -/
def Types.Num (ts : Types) : Nat := ts.toList.length

deriving instance DecidableEq for Except

/-- The ways a call of this file ends in a `panic`, one per panic site, named as
in the error taxonomy of the specification.

* `EmptyName`: `panic("attempt to register empty name")`
* `InvalidType`: `panic("attempt to register nil type or invalid type")`
* `DuplicateRegistration`: `panic("gotiny: registering duplicate types for " + ...)`
* `IdentifierCollision`: `panic(fmt.Sprintf("gotiny: registered name collision: ..."))`
* `UnregisteredType`: `panic("gotiny: attempt to serialize unregistered type: " + ...)`
* `SliceBounds`: the run-time panic of the slice expression `fn[4:]` when
  `len(fn) < 4`. -/
inductive Panic where
  | EmptyName | InvalidType | DuplicateRegistration | IdentifierCollision
  | UnregisteredType | SliceBounds
  deriving DecidableEq, Repr

/-- Go's `strconv.Itoa` on a non-negative `int`: the decimal digits. -/
def Itoa (n : Nat) : Bytes := (Nat.toDigits 10 n).map Char.toNat

/-- The tail of `getName`, reached by named types and by unnamed types of a kind
the `switch` does not handle:
`if rt.PkgPath() == "" { append rt.Name() } else { append rt.PkgPath()+"."+rt.Name() }`. -/
def appendQualified (pfx pkgPath name : Bytes) : Bytes :=
  if pkgPath = [] then pfx ++ name else pfx ++ (pkgPath ++ str "." ++ name)

mutual
/-- The function `getName(prefix, rt)` of the source; `pfx` is the accumulation buffer
`prefix`. The result is an error exactly when the slice `fn[4:]` of the
interface case is out of range. -/
def getName (pfx : Bytes) : RType → Except Panic Bytes
  | .nil => .ok (pfx ++ str "<nil>")
  | .mk pkgPath name shape =>
    if shape.Kind = Kind.Invalid then .ok (pfx ++ str "<nil>")
    else if name = [] then
      match shape with
      | .Ptr elem => getName (pfx ++ str "*") elem
      | .Array len elem => getName (pfx ++ (str "[" ++ Itoa len ++ str "]")) elem
      | .Slice elem => getName (pfx ++ str "[]") elem
      | .Struct fields =>
        let pfx := pfx ++ str "struct \x7b"
        let nf := fields.NumField
        let pfx := if nf > 0 then pfx ++ str " " else pfx
        match getNameFields pfx fields with
        | .error e => .error e
        | .ok pfx => .ok (pfx ++ str "\x7d")
      | .Map key elem =>
        match getName (pfx ++ str "map[") key with
        | .error e => .error e
        | .ok inner => getName (inner ++ str "]") elem
      | .Interface methods =>
        let pfx := pfx ++ str "interface \x7b"
        let nm := methods.NumMethod
        let pfx := if nm > 0 then pfx ++ str " " else pfx
        match getNameMethods pfx methods with
        | .error e => .error e
        | .ok pfx => .ok (pfx ++ str "\x7d")
      | .Func ins outs =>
        let pfx := pfx ++ str "func("
        match getNameTypes pfx ins with
        | .error e => .error e
        | .ok pfx =>
          let pfx := pfx ++ str ")"
          let no := outs.Num
          let pfx := if no > 0 then pfx ++ str " " else pfx
          let pfx := if no > 1 then pfx ++ str "(" else pfx
          match getNameTypes pfx outs with
          | .error e => .error e
          | .ok pfx => .ok (if no > 1 then pfx ++ str ")" else pfx)
      | _ => .ok (appendQualified pfx pkgPath name)
    else .ok (appendQualified pfx pkgPath name)
/-- The loop `for i := 0; i < nf; i++` of the struct case, from field `i` on:
the argument is the fields `i, ..., nf-1`, so that `i != nf-1` reads "the number of
fields after this one is not 0". -/
def getNameFields (pfx : Bytes) : Fields → Except Panic Bytes
  | .nil => .ok pfx
  | .cons fname anonymous typ rest =>
    match (if anonymous then getName pfx typ
           else getName (pfx ++ (fname ++ str " ")) typ) with
    | .error e => .error e
    | .ok pfx =>
      getNameFields (if rest.NumField ≠ 0 then pfx ++ str "; " else pfx ++ str " ") rest
/-- The loop `for i := 0; i < nm; i++` of the interface case, from method `i` on. -/
def getNameMethods (pfx : Bytes) : Methods → Except Panic Bytes
  | .nil => .ok pfx
  | .cons mname typ rest =>
    match getName [] typ with
    | .error e => .error e
    | .ok fn =>
      if fn.length < 4 then .error Panic.SliceBounds
      else
        let pfx := pfx ++ (mname ++ fn.drop 4)
        getNameMethods (if rest.NumMethod ≠ 0 then pfx ++ str "; " else pfx ++ str " ") rest
/-- The loops `for i := 0; i < rt.NumIn(); i++` and `for i := 0; i < no; i++` of the
function case (they have the same body), from index `i` on. -/
def getNameTypes (pfx : Bytes) : Types → Except Panic Bytes
  | .nil => .ok pfx
  | .cons t rest =>
    match getName pfx t with
    | .error e => .error e
    | .ok pfx => getNameTypes (if rest.Num ≠ 0 then pfx ++ str ", " else pfx) rest
end

/-- The function `GetNameByType(rt)`: `string(getName([]byte(nil), rt))`. -/
def GetNameByType (rt : RType) : Except Panic Bytes := getName [] rt

/-- An `any` value, reduced to what this file reads of it: its dynamic type, which is
`RType.nil` for the nil interface. -/
structure Any where
  dynamicType : RType
  deriving DecidableEq

/-- Go's `reflect.TypeOf`. -/
def TypeOf (i : Any) : RType := i.dynamicType

/-- The function `GetName(obj)`. -/
def GetName (obj : Any) : Except Panic Bytes := GetNameByType (TypeOf obj)

/-! ## The hasher: `hash/crc32` with the IEEE polynomial -/

/-- The constant `crc32.IEEE` of the Go standard library. -/
def IEEE : Nat := 0xedb88320

/-- Entry `i` of `crc32.MakeTable(poly)`, as computed by the standard library's
`simplePopulateTable`: eight times, `crc = (crc >> 1) ^ poly` when the low bit
is set and `crc >>= 1` otherwise. -/
def tableEntry (poly i : Nat) : Nat :=
  (List.range 8).foldl
    (fun c _ => if c % 2 = 1 then (c >>> 1) ^^^ poly else c >>> 1) i

/-- The table `hashTable = crc32.MakeTable(crc32.IEEE)`, as the function from the
index to the entry. -/
def hashTable (i : Nat) : Nat := tableEntry IEEE i

/-- One round of the standard library's `simpleUpdate` loop on a `uint32`:
`crc = tab[byte(crc)^v] ^ (crc >> 8)`. -/
def crcStep (c v : Nat) : Nat := hashTable ((c % 256) ^^^ (v % 256)) ^^^ (c >>> 8)

/-- The function `crc32.Checksum(data, hashTable)`: `simpleUpdate` started from `0`, with
the `uint32` complement `^crc` before and after the loop. -/
def Checksum (data : Bytes) : Nat :=
  (data.foldl crcStep (0 ^^^ 0xffffffff)) ^^^ 0xffffffff

/-- The function `crc(label)`. -/
def crc (label : Bytes) : Nat := Checksum label

/-- The value `defaultNameType = nameType(0)`. -/
def defaultNameType : Nat := 0

/-- The function `newNameType(str)`; a `nameType` is a `uint32`, here a natural number. -/
def newNameType (s : Bytes) : Nat := crc s

/-! ## The registry -/

/-- The two package-level maps `type2name` and `name2type`. -/
structure Registry where
  type2name : RType → Option Nat
  name2type : Nat → Option RType

/-- The registry at program start: `map[reflect.Type]nameType{}` and
`map[nameType]reflect.Type{}`. -/
def Registry.empty : Registry := ⟨fun _ => none, fun _ => none⟩

/-- The test `rt == nil || rt.Kind() == reflect.Invalid`. -/
def isNilOrInvalid : RType → Bool
  | .nil => true
  | .mk _ _ shape => decide (shape.Kind = Kind.Invalid)

/-- The function `getNameOfType(rt)`, with the registry it leaves. The message of the
panic is built from `GetNameByType(rt)` before `panic` is called, so a panic of
that call takes its place. -/
def getNameOfType (rt : RType) (r : Registry) : Except Panic Nat × Registry :=
  match r.type2name rt with
  | some name => (.ok name, r)
  | none =>
    match GetNameByType rt with
    | .error e => (.error e, r)
    | .ok _ => (.error Panic.UnregisteredType, r)

/-- The function `RegisterName(name, rt)`, with the registry it leaves. The message of
the duplicate panic is built from `GetNameByType(rt)` before `panic` is called,
so a panic of that call takes its place; the collision message uses only
`String()` of the two types and the map lookup `type2name[existingType]`. -/
def RegisterName (name : Bytes) (rt : RType) (r : Registry) : Except Panic Unit × Registry :=
  if name = [] then (.error Panic.EmptyName, r)
  else if isNilOrInvalid rt then (.error Panic.InvalidType, r)
  else
    match r.type2name rt with
    | some _ =>
      match GetNameByType rt with
      | .error e => (.error e, r)
      | .ok _ => (.error Panic.DuplicateRegistration, r)
    | none =>
      let nt := newNameType name
      match r.name2type nt with
      | some _ => (.error Panic.IdentifierCollision, r)
      | none =>
        let r1 : Registry := { r with name2type := Function.update r.name2type nt (some rt) }
        let r2 : Registry := { r1 with type2name := Function.update r1.type2name rt (some nt) }
        (.ok (), r2)

/-- The function `registerType(rt)`, with the registry it leaves. -/
def registerType (rt : RType) (r : Registry) : Except Panic Bytes × Registry :=
  match GetNameByType rt with
  | .error e => (.error e, r)
  | .ok name =>
    match RegisterName name rt r with
    | (.error e, r1) => (.error e, r1)
    | (.ok _, r1) => (.ok name, r1)

/-- The function `Register(i)`, with the registry it leaves. -/
def Register (i : Any) (r : Registry) : Except Panic Bytes × Registry :=
  registerType (TypeOf i) r

/-- A call that can change the registry. -/
inductive Call where
  | RegisterName (name : Bytes) (rt : RType) : Call
  | Register (i : Any) : Call

/-- The registry after a call, whether the call returned or panicked. -/
def Call.run (c : Call) (r : Registry) : Registry :=
  match c with
  | .RegisterName name rt => (Gotiny.RegisterName name rt r).2
  | .Register i => (Gotiny.Register i r).2

/-- The registry states of a program: the empty registry and what a sequence of
`RegisterName` / `Register` calls, failed ones included, makes of it. -/
inductive Reachable : Registry → Prop where
  | empty : Reachable Registry.empty
  | step (r : Registry) (c : Call) : Reachable r → Reachable (c.run r)

/-! ## Auxiliary definitions -/

/-- Appending to the buffer before or after a call of a buffer-passing function. -/
def Extends (f : Bytes → Except Panic Bytes) : Prop :=
  ∀ pfx, f pfx = (f []).map (fun s => pfx ++ s)

/-- The two maps are mutually inverse. -/
def Registry.Inverse (r : Registry) : Prop :=
  ∀ T id, r.type2name T = some id ↔ r.name2type id = some T

/-- Every key of `type2name` passed the nil / invalid test. -/
def Registry.KeysValid (r : Registry) : Prop :=
  ∀ T id, r.type2name T = some id → isNilOrInvalid T = false

/-- The registry after `name2type[nt] = rt; type2name[rt] = nt`. -/
def Registry.insert (r : Registry) (rt : RType) (nt : Nat) : Registry :=
  { type2name := Function.update r.type2name rt (some nt),
    name2type := Function.update r.name2type nt (some rt) }

/-- The test "`rt` is an unnamed function type": `rt.Name() == ""` and
`rt.Kind() == reflect.Func`. -/
def isUnnamedFunc : RType → Bool
  | .mk _ [] (.Func _ _) => true
  | _ => false

mutual
/-- What `reflect` guarantees of the types it hands out, as far as `getName` depends on
it: the `Type` of every method of an interface type is an unnamed function type
(the signature of the method). -/
def RType.WellFormed : RType → Bool
  | .nil => true
  | .mk _ _ shape => shape.WellFormed
/-- The guarantee `RType.WellFormed` on the constituents of a shape. -/
def Shape.WellFormed : Shape → Bool
  | .Invalid => true
  | .Scalar _ => true
  | .Ptr elem => elem.WellFormed
  | .Array _ elem => elem.WellFormed
  | .Slice elem => elem.WellFormed
  | .Chan elem => elem.WellFormed
  | .Struct fields => fields.WellFormed
  | .Map key elem => key.WellFormed && elem.WellFormed
  | .Interface methods => methods.WellFormed
  | .Func ins outs => ins.WellFormed && outs.WellFormed
/-- The guarantee `RType.WellFormed` on the types of the fields. -/
def Fields.WellFormed : Fields → Bool
  | .nil => true
  | .cons _ _ typ rest => typ.WellFormed && rest.WellFormed
/-- The guarantee `RType.WellFormed` on the methods: each has an unnamed function type. -/
def Methods.WellFormed : Methods → Bool
  | .nil => true
  | .cons _ typ rest => isUnnamedFunc typ && typ.WellFormed && rest.WellFormed
/-- The guarantee `RType.WellFormed` on a sequence of types. -/
def Types.WellFormed : Types → Bool
  | .nil => true
  | .cons t rest => t.WellFormed && rest.WellFormed
end

/-- The rendering of one struct field `(Name, Anonymous, Type)` in the words of the
specification: an embedded field renders as the signature of its type only,
any other field as its name, a single space and the signature of its type. -/
def fieldRendering (f : Bytes × Bool × RType) : Except Panic Bytes :=
  match GetNameByType f.2.2 with
  | .error e => .error e
  | .ok sig => .ok (if f.2.1 then sig else f.1 ++ str " " ++ sig)

/-- The rendering of an unnamed struct type with the given fields in the words of the
specification: `struct {}` without fields, and otherwise `struct { `, the field
renderings joined by `; `, and ` }`. -/
def structRendering (fs : List (Bytes × Bool × RType)) : Except Panic Bytes :=
  match fs.mapM fieldRendering with
  | .error e => .error e
  | .ok rs =>
    .ok (if fs.length = 0 then str "struct \x7b\x7d"
         else str "struct \x7b " ++ List.intercalate (str "; ") rs ++ str " \x7d")

/-! ## Sample types and registries -/

/-- The predeclared type `int`. -/
def intType : RType := .mk [] (str "int") (.Scalar .Int)

/-- The predeclared type `string`. -/
def stringType : RType := .mk [] (str "string") (.Scalar .String)

/-- The named struct type `Point` of package `pkg`: `type Point struct { X int; Y int }`. -/
def pointType : RType :=
  .mk (str "pkg") (str "Point")
    (.Struct (.cons (str "X") false intType (.cons (str "Y") false intType .nil)))

/-- The unnamed struct type `struct { Name string; Age int }`. -/
def personType : RType :=
  .mk [] [] (.Struct (.cons (str "Name") false stringType (.cons (str "Age") false intType .nil)))

/-- The registry after `RegisterName("pkg.Point", Point)` on the empty registry. -/
def pointRegistry : Registry :=
  (Call.RegisterName (str "pkg.Point") pointType).run Registry.empty

/-- The named struct type `T` of package `pkg`, without fields. -/
def pkgT : RType := .mk (str "pkg") (str "T") (.Struct .nil)

/-- The unnamed type `map[string][]*pkg.T`. -/
def mapStringSlicePtrT : RType :=
  .mk [] [] (.Map stringType (.mk [] [] (.Slice (.mk [] [] (.Ptr pkgT)))))

/-- The unnamed channel type `chan int`. -/
def chanInt : RType := .mk [] [] (.Chan intType)

/-- The unnamed channel type `chan string`. -/
def chanString : RType := .mk [] [] (.Chan stringType)

/-- The kinds that the `switch` of `getName` handles. -/
def handledKinds : List Kind :=
  [Kind.Ptr, Kind.Array, Kind.Slice, Kind.Struct, Kind.Map, Kind.Interface, Kind.Func]

/-- The rendering of an unnamed function type with the given parameter and result types in
the words of the specification: `func(`, the parameter signatures joined by
`, `, `)`, and then nothing without results, a space and the signature for one
result, and a space and the parenthesised signatures joined by `, ` for more. -/
def funcRendering (ins outs : List RType) : Except Panic Bytes :=
  match ins.mapM GetNameByType with
  | .error e => .error e
  | .ok ps =>
    match outs.mapM GetNameByType with
    | .error e => .error e
    | .ok rs =>
      .ok (str "func(" ++ List.intercalate (str ", ") ps ++ str ")" ++
        (match rs with
         | [] => []
         | [r] => str " " ++ r
         | _ => str " (" ++ List.intercalate (str ", ") rs ++ str ")"))

/-- A rendering with its leading `func` removed, in the words of the specification. -/
def removeFunc (fn : Bytes) : Bytes :=
  if (str "func").isPrefixOf fn then fn.drop 4 else fn

/-- The rendering of one interface method `(Name, Type)` in the words of the specification:
the name of the method followed by the rendering of its function type without
the leading `func`. -/
def methodRendering (m : Bytes × RType) : Except Panic Bytes :=
  match GetNameByType m.2 with
  | .error e => .error e
  | .ok fn => .ok (m.1 ++ removeFunc fn)

/-- The rendering of an unnamed interface type with the given methods in the words of the
specification: `interface {}` without methods, and otherwise `interface { `,
the method renderings joined by `; `, and ` }`. -/
def interfaceRendering (ms : List (Bytes × RType)) : Except Panic Bytes :=
  match ms.mapM methodRendering with
  | .error e => .error e
  | .ok rs =>
    .ok (if ms.length = 0 then str "interface \x7b\x7d"
         else str "interface \x7b " ++ List.intercalate (str "; ") rs ++ str " \x7d")

/-- The predeclared type `uint8`. -/
def uint8Type : RType := .mk [] (str "uint8") (.Scalar .Uint8)

/-- The predeclared interface type `error`. -/
def errorType : RType :=
  .mk [] (str "error")
    (.Interface (.cons (str "Error") (.mk [] [] (.Func .nil (.cons stringType .nil))) .nil))

/-- The unnamed function type `func([]uint8) (int, error)`. -/
def readFuncType : RType :=
  .mk [] [] (.Func (.cons (.mk [] [] (.Slice uint8Type)) .nil)
    (.cons intType (.cons errorType .nil)))

/-- The unnamed interface type `interface { Read([]uint8) (int, error) }`. -/
def readerType : RType :=
  .mk [] [] (.Interface (.cons (str "Read") readFuncType .nil))

/-- An interface descriptor whose only method `M` has the named type `int` as its `Type`. -/
def badInterface : RType :=
  .mk [] [] (.Interface (.cons (str "M") intType .nil))

mutual
/-- The function `getName` run with a bound on the depth of its recursion: a call is allowed
`depth` nested activations of `getName`, itself included, and the result is
`none` when the recursion would go deeper. Apart from the bound the text is
that of `getName`. -/
def getNameBounded : Nat → Bytes → RType → Option (Except Panic Bytes)
  | 0, _, _ => none
  | _ + 1, pfx, .nil => some (.ok (pfx ++ str "<nil>"))
  | d + 1, pfx, .mk pkgPath name shape =>
    if shape.Kind = Kind.Invalid then some (.ok (pfx ++ str "<nil>"))
    else if name = [] then
      match shape with
      | .Ptr elem => getNameBounded d (pfx ++ str "*") elem
      | .Array len elem => getNameBounded d (pfx ++ (str "[" ++ Itoa len ++ str "]")) elem
      | .Slice elem => getNameBounded d (pfx ++ str "[]") elem
      | .Struct fields =>
        let pfx := pfx ++ str "struct \x7b"
        let nf := fields.NumField
        let pfx := if nf > 0 then pfx ++ str " " else pfx
        match getNameFieldsBounded d pfx fields with
        | none => none
        | some (.error e) => some (.error e)
        | some (.ok pfx) => some (.ok (pfx ++ str "\x7d"))
      | .Map key elem =>
        match getNameBounded d (pfx ++ str "map[") key with
        | none => none
        | some (.error e) => some (.error e)
        | some (.ok inner) => getNameBounded d (inner ++ str "]") elem
      | .Interface methods =>
        let pfx := pfx ++ str "interface \x7b"
        let nm := methods.NumMethod
        let pfx := if nm > 0 then pfx ++ str " " else pfx
        match getNameMethodsBounded d pfx methods with
        | none => none
        | some (.error e) => some (.error e)
        | some (.ok pfx) => some (.ok (pfx ++ str "\x7d"))
      | .Func ins outs =>
        let pfx := pfx ++ str "func("
        match getNameTypesBounded d pfx ins with
        | none => none
        | some (.error e) => some (.error e)
        | some (.ok pfx) =>
          let pfx := pfx ++ str ")"
          let no := outs.Num
          let pfx := if no > 0 then pfx ++ str " " else pfx
          let pfx := if no > 1 then pfx ++ str "(" else pfx
          match getNameTypesBounded d pfx outs with
          | none => none
          | some (.error e) => some (.error e)
          | some (.ok pfx) => some (.ok (if no > 1 then pfx ++ str ")" else pfx))
      | _ => some (.ok (appendQualified pfx pkgPath name))
    else some (.ok (appendQualified pfx pkgPath name))
/-- The struct loop of `getNameBounded`; `d` bounds the calls of `getName` in the loop body. -/
def getNameFieldsBounded (d : Nat) (pfx : Bytes) : Fields → Option (Except Panic Bytes)
  | .nil => some (.ok pfx)
  | .cons fname anonymous typ rest =>
    match (if anonymous then getNameBounded d pfx typ
           else getNameBounded d (pfx ++ (fname ++ str " ")) typ) with
    | none => none
    | some (.error e) => some (.error e)
    | some (.ok pfx) =>
      getNameFieldsBounded d
        (if rest.NumField ≠ 0 then pfx ++ str "; " else pfx ++ str " ") rest
/-- The interface loop of `getNameBounded`. -/
def getNameMethodsBounded (d : Nat) (pfx : Bytes) : Methods → Option (Except Panic Bytes)
  | .nil => some (.ok pfx)
  | .cons mname typ rest =>
    match getNameBounded d [] typ with
    | none => none
    | some (.error e) => some (.error e)
    | some (.ok fn) =>
      if fn.length < 4 then some (.error Panic.SliceBounds)
      else
        let pfx := pfx ++ (mname ++ fn.drop 4)
        getNameMethodsBounded d
          (if rest.NumMethod ≠ 0 then pfx ++ str "; " else pfx ++ str " ") rest
/-- The parameter and result loops of `getNameBounded`. -/
def getNameTypesBounded (d : Nat) (pfx : Bytes) : Types → Option (Except Panic Bytes)
  | .nil => some (.ok pfx)
  | .cons t rest =>
    match getNameBounded d pfx t with
    | none => none
    | some (.error e) => some (.error e)
    | some (.ok pfx) =>
      getNameTypesBounded d (if rest.Num ≠ 0 then pfx ++ str ", " else pfx) rest
end

mutual
/-- The nesting depth of the signature of a type: 1 for the nil type, an invalid type, a
named type and an unnamed type of a kind without rendered constituents, and one
more than the deepest constituent for an unnamed pointer, array, slice, struct,
map, interface or function type. -/
def RType.signatureDepth : RType → Nat
  | .nil => 1
  | .mk _ name shape =>
    if shape.Kind = Kind.Invalid then 1
    else if name = [] then
      match shape with
      | .Ptr elem => 1 + elem.signatureDepth
      | .Array _ elem => 1 + elem.signatureDepth
      | .Slice elem => 1 + elem.signatureDepth
      | .Struct fields => 1 + fields.maxDepth
      | .Map key elem => 1 + max key.signatureDepth elem.signatureDepth
      | .Interface methods => 1 + methods.maxDepth
      | .Func ins outs => 1 + max ins.maxDepth outs.maxDepth
      | _ => 1
    else 1
/-- The greatest `signatureDepth` of the field types, 0 without fields. -/
def Fields.maxDepth : Fields → Nat
  | .nil => 0
  | .cons _ _ typ rest => max typ.signatureDepth rest.maxDepth
/-- The greatest `signatureDepth` of the method types, 0 without methods. -/
def Methods.maxDepth : Methods → Nat
  | .nil => 0
  | .cons _ typ rest => max typ.signatureDepth rest.maxDepth
/-- The greatest `signatureDepth` of the types of a sequence, 0 for the empty one. -/
def Types.maxDepth : Types → Nat
  | .nil => 0
  | .cons t rest => max t.signatureDepth rest.maxDepth
end

/-- The unnamed pointer type `*int`. -/
def ptrInt : RType := .mk [] [] (.Ptr intType)

/-- The unnamed pointer type `*string`. -/
def ptrString : RType := .mk [] [] (.Ptr stringType)

/-- A non-empty ASCII name whose CRC-32/IEEE checksum is 0. -/
def zeroName : Bytes := str "pkg.cROLLf"

/-- The name a call registers its type under: the explicit name of `RegisterName`, the
canonical name `GetNameByType(reflect.TypeOf(i))` of `Register`. -/
def Call.name : Call → Except Panic Bytes
  | .RegisterName name _ => .ok name
  | .Register i => GetNameByType (TypeOf i)

/-- The registry states reached from the empty registry by calls none of which registers
under a name whose checksum is 0. -/
inductive ReachableNonzero : Registry → Prop where
  | empty : ReachableNonzero Registry.empty
  | step (r : Registry) (c : Call) : ReachableNonzero r →
      (∀ n, c.name = .ok n → Checksum n ≠ 0) → ReachableNonzero (c.run r)

/-- Identifier 0 is absent from both maps. -/
def Registry.ZeroFree (r : Registry) : Prop :=
  r.name2type 0 = none ∧ ∀ T, r.type2name T ≠ some 0

/-- Modelled from the spec: the type `Encoder` is declared outside `register.go`; of it
only the output buffer `buf` is kept. -/
structure Encoder where
  buf : Bytes
  deriving DecidableEq

/-- Modelled from the spec: the type `Decoder` is declared outside `register.go`; of it
the input buffer `buf` and the read cursor `index` are kept. -/
structure Decoder where
  buf : Bytes
  index : Nat
  deriving DecidableEq

/-- Modelled from the spec: the method `encUint32` is defined outside `register.go`. The
specification has the identifier written "as exactly 4 bytes in the stream's
established fixed-width integer encoding"; the four bytes are taken least
significant first. -/
def Encoder.encUint32 (e : Encoder) (v : Nat) : Encoder :=
  { buf := e.buf ++ [v % 256, v / 256 % 256, v / 65536 % 256, v / 16777216 % 256] }

/-- Modelled from the spec: the method `decUint32` is defined outside `register.go`. The
specification has it consume "exactly 4 bytes from the current read position",
"advancing the cursor by 4"; `none` when fewer than 4 bytes are left. -/
def Decoder.decUint32 (d : Decoder) : Option (Nat × Decoder) :=
  match d.buf.drop d.index with
  | b0 :: b1 :: b2 :: b3 :: _ =>
    some (b0 + 256 * b1 + 65536 * b2 + 16777216 * b3, { d with index := d.index + 4 })
  | _ => none

/-- The method `encNameType(nt)`: `e.encUint32(uint32(nt))`. -/
def Encoder.encNameType (e : Encoder) (nt : Nat) : Encoder :=
  e.encUint32 (nt % 2 ^ 32)

/-- The function `decNameType(d, p)`: `*(*uint32)(p) = d.decUint32()`; the result is the value
stored through `p` together with the decoder. -/
def decNameType (d : Decoder) : Option (Nat × Decoder) :=
  d.decUint32

/-! ## The accumulation buffer -/

theorem Extends.app {f : Bytes → Except Panic Bytes} (h : Extends f) (p q : Bytes) :
    f (p ++ q) = (f q).map (fun s => p ++ s) := by
  rw [h (p ++ q), h q]
  cases f [] <;> simp [Except.map]

theorem appendQualified_eq (pfx pkgPath name : Bytes) :
    appendQualified pfx pkgPath name = pfx ++ appendQualified [] pkgPath name := by
  unfold appendQualified
  split <;> simp

mutual
theorem getName_extends : ∀ rt : RType, Extends (fun pfx => getName pfx rt)
  | .nil => by intro pfx; simp [getName, Except.map]
  | .mk pkgPath name shape => by
    intro pfx
    have hq := appendQualified_eq pfx pkgPath name
    cases shape with
    | Invalid => simp [getName, Shape.Kind, Except.map]
    | Scalar k =>
      simp only [getName, List.nil_append]
      split
      · simp [Except.map]
      · split <;> simp [Except.map, hq]
    | Chan elem =>
      simp only [getName, List.nil_append]
      split
      · simp [Except.map]
      · split <;> simp [Except.map, hq]
    | Ptr elem =>
      have ih := getName_extends elem
      simp only [getName, List.nil_append]
      split
      · simp [Except.map]
      · split
        · simp only [ih.app pfx]
        · simp [Except.map, hq]
    | Array len elem =>
      have ih := getName_extends elem
      simp only [getName, List.nil_append]
      split
      · simp [Except.map]
      · split
        · simp only [ih.app pfx]
        · simp [Except.map, hq]
    | Slice elem =>
      have ih := getName_extends elem
      simp only [getName, List.nil_append]
      split
      · simp [Except.map]
      · split
        · simp only [ih.app pfx]
        · simp [Except.map, hq]
    | Struct fields =>
      have ih := getNameFields_extends fields
      simp only [getName, List.nil_append]
      split
      · simp [Except.map]
      · split
        · have e1 : (if fields.NumField > 0 then pfx ++ str "struct \x7b" ++ str " "
              else pfx ++ str "struct \x7b")
              = pfx ++ (if fields.NumField > 0 then str "struct \x7b" ++ str " "
                else str "struct \x7b") := by split <;> simp
          simp only [e1, ih.app pfx]
          cases getNameFields _ fields <;> simp [Except.map]
        · simp [Except.map, hq]
    | Map key elem =>
      have ihk := getName_extends key
      have ihe := getName_extends elem
      simp only [getName, List.nil_append]
      split
      · simp [Except.map]
      · split
        · simp only [ihk.app pfx]
          cases getName (str "map[") key with
          | error e => simp [Except.map]
          | ok inner =>
            simp only [Except.map, List.append_assoc]
            exact ihe.app pfx _
        · simp [Except.map, hq]
    | Interface methods =>
      have ih := getNameMethods_extends methods
      simp only [getName, List.nil_append]
      split
      · simp [Except.map]
      · split
        · have e1 : (if methods.NumMethod > 0 then pfx ++ str "interface \x7b" ++ str " "
              else pfx ++ str "interface \x7b")
              = pfx ++ (if methods.NumMethod > 0 then str "interface \x7b" ++ str " "
                else str "interface \x7b") := by split <;> simp
          simp only [e1, ih.app pfx]
          cases getNameMethods _ methods <;> simp [Except.map]
        · simp [Except.map, hq]
    | Func ins outs =>
      have ihi := getNameTypes_extends ins
      have iho := getNameTypes_extends outs
      simp only [getName, List.nil_append]
      split
      · simp [Except.map]
      · split
        · simp only [ihi.app pfx]
          cases getNameTypes (str "func(") ins with
          | error e => simp [Except.map]
          | ok inner =>
            simp only [Except.map]
            have e1 : (if outs.Num > 1 then
                  (if outs.Num > 0 then pfx ++ inner ++ str ")" ++ str " "
                    else pfx ++ inner ++ str ")") ++ str "("
                else (if outs.Num > 0 then pfx ++ inner ++ str ")" ++ str " "
                    else pfx ++ inner ++ str ")"))
                = pfx ++ (if outs.Num > 1 then
                  (if outs.Num > 0 then inner ++ str ")" ++ str " "
                    else inner ++ str ")") ++ str "("
                else (if outs.Num > 0 then inner ++ str ")" ++ str " "
                    else inner ++ str ")")) := by
              split <;> split <;> simp
            simp only [e1, iho.app pfx]
            cases getNameTypes _ outs with
            | error e => simp [Except.map]
            | ok res => simp only [Except.map]; split <;> simp
        · simp [Except.map, hq]
theorem getNameFields_extends : ∀ fs : Fields, Extends (fun pfx => getNameFields pfx fs)
  | .nil => by intro pfx; simp [getNameFields, Except.map]
  | .cons fname anonymous typ rest => by
    intro pfx
    have iht := getName_extends typ
    have ihr := getNameFields_extends rest
    simp only [getNameFields, List.nil_append]
    have e1 : (if anonymous = true then getName pfx typ
          else getName (pfx ++ (fname ++ str " ")) typ)
        = (if anonymous = true then getName [] typ
          else getName (fname ++ str " ") typ).map (fun s => pfx ++ s) := by
      split
      · exact iht pfx
      · exact iht.app pfx _
    rw [e1]
    cases (if anonymous = true then getName [] typ else getName (fname ++ str " ") typ) with
    | error e => simp [Except.map]
    | ok inner =>
      simp only [Except.map]
      have e2 : (if rest.NumField ≠ 0 then pfx ++ inner ++ str "; " else pfx ++ inner ++ str " ")
          = pfx ++ (if rest.NumField ≠ 0 then inner ++ str "; " else inner ++ str " ") := by
        split <;> simp
      rw [e2]
      exact ihr.app pfx _
theorem getNameMethods_extends : ∀ ms : Methods, Extends (fun pfx => getNameMethods pfx ms)
  | .nil => by intro pfx; simp [getNameMethods, Except.map]
  | .cons mname typ rest => by
    intro pfx
    have ihr := getNameMethods_extends rest
    simp only [getNameMethods, List.nil_append]
    cases getName [] typ with
    | error e => simp [Except.map]
    | ok fn =>
      simp only
      split
      · simp [Except.map]
      · have e2 : (if rest.NumMethod ≠ 0 then pfx ++ (mname ++ List.drop 4 fn) ++ str "; "
              else pfx ++ (mname ++ List.drop 4 fn) ++ str " ")
            = pfx ++ (if rest.NumMethod ≠ 0 then mname ++ List.drop 4 fn ++ str "; "
              else mname ++ List.drop 4 fn ++ str " ") := by
          split <;> simp
        rw [e2]
        exact ihr.app pfx _
theorem getNameTypes_extends : ∀ ts : Types, Extends (fun pfx => getNameTypes pfx ts)
  | .nil => by intro pfx; simp [getNameTypes, Except.map]
  | .cons t rest => by
    intro pfx
    have iht := getName_extends t
    have ihr := getNameTypes_extends rest
    simp only [getNameTypes]
    have h1 : getName pfx t = (getName [] t).map (fun s => pfx ++ s) := iht pfx
    rw [h1]
    cases getName [] t with
    | error e => simp [Except.map]
    | ok inner =>
      simp only [Except.map]
      have e2 : (if rest.Num ≠ 0 then pfx ++ inner ++ str ", " else pfx ++ inner)
          = pfx ++ (if rest.Num ≠ 0 then inner ++ str ", " else inner) := by
        split <;> simp
      rw [e2]
      exact ihr.app pfx _
end

/-! ## Well-formed types render -/

theorem Extends.ok {f : Bytes → Except Panic Bytes} (h : Extends f) {s : Bytes}
    (hs : f [] = .ok s) (p : Bytes) : f p = .ok (p ++ s) := by
  rw [h p, hs]; rfl

theorem Extends.isPrefix {f : Bytes → Except Panic Bytes} (h : Extends f) {p s : Bytes}
    (hs : f p = .ok s) : p <+: s := by
  rw [h p] at hs
  cases h0 : f [] with
  | error e => rw [h0] at hs; cases hs
  | ok s0 =>
    rw [h0] at hs
    simp only [Except.map, Except.ok.injEq] at hs
    exact ⟨s0, hs⟩

theorem getName_unnamedFunc_isPrefix (t : RType) (fn : Bytes) (ht : isUnnamedFunc t = true)
    (h : getName [] t = .ok fn) : str "func(" <+: fn := by
  match t, ht with
  | .mk p [] (.Func ins outs), _ =>
    simp only [getName, Shape.Kind, List.nil_append] at h
    simp only [reduceCtorEq, if_false, if_true] at h
    cases h1 : getNameTypes (str "func(") ins with
    | error e => rw [h1] at h; cases h
    | ok p1 =>
      have q1 := (getNameTypes_extends ins).isPrefix h1
      rw [h1] at h
      simp only at h
      generalize hp2 : (if outs.Num > 1 then
          (if outs.Num > 0 then p1 ++ str ")" ++ str " " else p1 ++ str ")") ++ str "("
          else (if outs.Num > 0 then p1 ++ str ")" ++ str " " else p1 ++ str ")")) = p2 at h
      have q2 : p1 <+: p2 := by
        rw [← hp2]
        split <;> split <;> simp [List.append_assoc]
      cases h3 : getNameTypes p2 outs with
      | error e => rw [h3] at h; cases h
      | ok p3 =>
        have q3 := (getNameTypes_extends outs).isPrefix h3
        rw [h3] at h
        simp only [Except.ok.injEq] at h
        have q4 : p3 <+: fn := by
          rw [← h]
          split <;> simp
        exact q1.trans (q2.trans (q3.trans q4))

theorem getName_unnamedFunc_length (t : RType) (fn : Bytes) (ht : isUnnamedFunc t = true)
    (h : getName [] t = .ok fn) : ¬ fn.length < 4 := by
  have hp := (getName_unnamedFunc_isPrefix t fn ht h).length_le
  have : (str "func(").length = 5 := by decide
  omega

mutual
theorem getName_ok : ∀ rt : RType, rt.WellFormed = true → ∃ s, getName [] rt = .ok s
  | .nil, _ => by simp only [getName]; exact ⟨_, rfl⟩
  | .mk pkgPath name shape, hwf => by
    simp only [RType.WellFormed] at hwf
    cases shape with
    | Invalid => simp only [getName, Shape.Kind, if_true]; exact ⟨_, rfl⟩
    | Scalar k =>
      simp only [getName]
      split
      · exact ⟨_, rfl⟩
      · split <;> exact ⟨_, rfl⟩
    | Chan elem =>
      simp only [getName]
      split
      · exact ⟨_, rfl⟩
      · split <;> exact ⟨_, rfl⟩
    | Ptr elem =>
      simp only [Shape.WellFormed] at hwf
      obtain ⟨s, hs⟩ := getName_ok elem hwf
      simp only [getName]
      split
      · exact ⟨_, rfl⟩
      · split
        · exact ⟨_, (getName_extends elem).ok hs _⟩
        · exact ⟨_, rfl⟩
    | Array len elem =>
      simp only [Shape.WellFormed] at hwf
      obtain ⟨s, hs⟩ := getName_ok elem hwf
      simp only [getName]
      split
      · exact ⟨_, rfl⟩
      · split
        · exact ⟨_, (getName_extends elem).ok hs _⟩
        · exact ⟨_, rfl⟩
    | Slice elem =>
      simp only [Shape.WellFormed] at hwf
      obtain ⟨s, hs⟩ := getName_ok elem hwf
      simp only [getName]
      split
      · exact ⟨_, rfl⟩
      · split
        · exact ⟨_, (getName_extends elem).ok hs _⟩
        · exact ⟨_, rfl⟩
    | Struct fields =>
      simp only [Shape.WellFormed] at hwf
      obtain ⟨s, hs⟩ := getNameFields_ok fields hwf
      simp only [getName]
      split
      · exact ⟨_, rfl⟩
      · split
        · rw [(getNameFields_extends fields).ok hs]
          exact ⟨_, rfl⟩
        · exact ⟨_, rfl⟩
    | Map key elem =>
      simp only [Shape.WellFormed, Bool.and_eq_true] at hwf
      obtain ⟨sk, hk⟩ := getName_ok key hwf.1
      obtain ⟨se, he⟩ := getName_ok elem hwf.2
      simp only [getName]
      split
      · exact ⟨_, rfl⟩
      · split
        · rw [(getName_extends key).ok hk]
          exact ⟨_, (getName_extends elem).ok he _⟩
        · exact ⟨_, rfl⟩
    | Interface methods =>
      simp only [Shape.WellFormed] at hwf
      obtain ⟨s, hs⟩ := getNameMethods_ok methods hwf
      simp only [getName]
      split
      · exact ⟨_, rfl⟩
      · split
        · rw [(getNameMethods_extends methods).ok hs]
          exact ⟨_, rfl⟩
        · exact ⟨_, rfl⟩
    | Func ins outs =>
      simp only [Shape.WellFormed, Bool.and_eq_true] at hwf
      obtain ⟨si, hi⟩ := getNameTypes_ok ins hwf.1
      obtain ⟨so, ho⟩ := getNameTypes_ok outs hwf.2
      simp only [getName]
      split
      · exact ⟨_, rfl⟩
      · split
        · rw [(getNameTypes_extends ins).ok hi]
          simp only
          rw [(getNameTypes_extends outs).ok ho]
          exact ⟨_, rfl⟩
        · exact ⟨_, rfl⟩
theorem getNameFields_ok : ∀ fs : Fields, fs.WellFormed = true →
    ∃ s, getNameFields [] fs = .ok s
  | .nil, _ => by simp only [getNameFields]; exact ⟨_, rfl⟩
  | .cons fname anonymous typ rest, hwf => by
    simp only [Fields.WellFormed, Bool.and_eq_true] at hwf
    obtain ⟨st, ht⟩ := getName_ok typ hwf.1
    obtain ⟨sr, hr⟩ := getNameFields_ok rest hwf.2
    have ht2 := (getName_extends typ).ok ht ([] ++ (fname ++ str " "))
    cases anonymous with
    | true =>
      simp only [getNameFields, ht, if_true]
      rw [(getNameFields_extends rest).ok hr]
      exact ⟨_, rfl⟩
    | false =>
      simp only [getNameFields, ht2, Bool.false_eq_true, if_false]
      rw [(getNameFields_extends rest).ok hr]
      exact ⟨_, rfl⟩
theorem getNameMethods_ok : ∀ ms : Methods, ms.WellFormed = true →
    ∃ s, getNameMethods [] ms = .ok s
  | .nil, _ => by simp only [getNameMethods]; exact ⟨_, rfl⟩
  | .cons mname typ rest, hwf => by
    simp only [Methods.WellFormed, Bool.and_eq_true] at hwf
    obtain ⟨fn, ht⟩ := getName_ok typ hwf.1.2
    obtain ⟨sr, hr⟩ := getNameMethods_ok rest hwf.2
    have hlen := getName_unnamedFunc_length typ fn hwf.1.1 ht
    simp only [getNameMethods, ht, hlen, if_false]
    rw [(getNameMethods_extends rest).ok hr]
    exact ⟨_, rfl⟩
theorem getNameTypes_ok : ∀ ts : Types, ts.WellFormed = true →
    ∃ s, getNameTypes [] ts = .ok s
  | .nil, _ => by simp only [getNameTypes]; exact ⟨_, rfl⟩
  | .cons t rest, hwf => by
    simp only [Types.WellFormed, Bool.and_eq_true] at hwf
    obtain ⟨st, ht⟩ := getName_ok t hwf.1
    obtain ⟨sr, hr⟩ := getNameTypes_ok rest hwf.2
    simp only [getNameTypes, ht]
    rw [(getNameTypes_extends rest).ok hr]
    exact ⟨_, rfl⟩
end

/-! ## The registry: auxiliary facts -/

theorem Scalar.Kind_ne_Invalid (k : Scalar) : k.Kind ≠ Gotiny.Kind.Invalid := by
  cases k <;> simp [Scalar.Kind]

theorem Shape.Kind_eq_Invalid (s : Shape) : s.Kind = Gotiny.Kind.Invalid ↔ s = Shape.Invalid := by
  cases s <;> simp [Shape.Kind, Scalar.Kind_ne_Invalid]

theorem RegisterName_ok_eq (r : Registry) (name : Bytes) (rt : RType)
    (hn : name ≠ []) (hv : isNilOrInvalid rt = false)
    (ht : r.type2name rt = none) (hc : r.name2type (newNameType name) = none) :
    RegisterName name rt r = (.ok (), r.insert rt (newNameType name)) := by
  simp [RegisterName, hn, hv, ht, hc, Registry.insert]

theorem RegisterName_cases (r : Registry) (name : Bytes) (rt : RType) :
    (∃ e, RegisterName name rt r = (.error e, r)) ∨
    (name ≠ [] ∧ isNilOrInvalid rt = false ∧ r.type2name rt = none ∧
      r.name2type (newNameType name) = none ∧
      RegisterName name rt r = (.ok (), r.insert rt (newNameType name))) := by
  by_cases hn : name = []
  · left; exact ⟨Panic.EmptyName, by simp [RegisterName, hn]⟩
  by_cases hv : isNilOrInvalid rt = true
  · left; exact ⟨Panic.InvalidType, by simp [RegisterName, hn, hv]⟩
  have hv : isNilOrInvalid rt = false := by simpa using hv
  by_cases ht : r.type2name rt = none
  · by_cases hc : r.name2type (newNameType name) = none
    · right
      exact ⟨hn, hv, ht, hc, RegisterName_ok_eq r name rt hn hv ht hc⟩
    · left
      obtain ⟨old, hold⟩ := Option.ne_none_iff_exists'.mp hc
      exact ⟨Panic.IdentifierCollision, by simp [RegisterName, hn, hv, ht, hold]⟩
  · left
    obtain ⟨id, hid⟩ := Option.ne_none_iff_exists'.mp ht
    cases hg : GetNameByType rt with
    | error e => exact ⟨e, by simp [RegisterName, hn, hv, hid, hg]⟩
    | ok s => exact ⟨Panic.DuplicateRegistration, by simp [RegisterName, hn, hv, hid, hg]⟩

theorem registerType_state (r : Registry) (rt : RType) :
    (registerType rt r).2 = r ∨
    ∃ name, (registerType rt r).2 = (RegisterName name rt r).2 := by
  unfold registerType
  cases hg : GetNameByType rt with
  | error e => left; rfl
  | ok name =>
    right
    refine ⟨name, ?_⟩
    simp only
    rcases h : RegisterName name rt r with ⟨res, r1⟩
    cases res <;> rfl

theorem Call.run_state (c : Call) (r : Registry) :
    c.run r = r ∨ ∃ name rt, c.run r = (Gotiny.RegisterName name rt r).2 := by
  cases c with
  | RegisterName name rt => right; exact ⟨name, rt, rfl⟩
  | Register i =>
    rcases registerType_state r (TypeOf i) with h | ⟨name, h⟩
    · left; exact h
    · right; exact ⟨name, TypeOf i, h⟩

theorem Registry.insert_inverse (r : Registry) (rt : RType) (nt : Nat)
    (hi : r.Inverse) (ht : r.type2name rt = none) (hc : r.name2type nt = none) :
    (r.insert rt nt).Inverse := by
  intro T id
  simp only [Registry.insert, Function.update_apply]
  by_cases hT : T = rt
  · subst hT
    by_cases hid : id = nt
    · subst hid; simp
    · have : r.name2type id ≠ some T := fun h => by
        rw [← hi T id, ht] at h; cases h
      simp [hid, this, Ne.symm hid]
  · by_cases hid : id = nt
    · subst hid
      have : r.type2name T ≠ some id := fun h => by
        rw [hi T id, hc] at h; cases h
      simp [hT, this, Ne.symm hT]
    · simp [hT, hid, hi T id]

theorem RegisterName_inverse (r : Registry) (name : Bytes) (rt : RType)
    (hi : r.Inverse) : (RegisterName name rt r).2.Inverse := by
  rcases RegisterName_cases r name rt with ⟨e, h⟩ | ⟨_, _, ht, hc, h⟩
  · rw [h]; exact hi
  · rw [h]; exact Registry.insert_inverse r rt _ hi ht hc

theorem RegisterName_keysValid (r : Registry) (name : Bytes) (rt : RType)
    (hk : r.KeysValid) : (RegisterName name rt r).2.KeysValid := by
  rcases RegisterName_cases r name rt with ⟨e, h⟩ | ⟨_, hv, _, _, h⟩
  · rw [h]; exact hk
  · rw [h]
    intro T id hT
    simp only [Registry.insert, Function.update_apply] at hT
    by_cases hTr : T = rt
    · subst hTr; exact hv
    · simp only [hTr, if_false] at hT; exact hk T id hT

theorem Reachable.inverse {r : Registry} (h : Reachable r) : r.Inverse := by
  induction h with
  | empty => intro T id; simp [Registry.empty]
  | step r c _ ih =>
    rcases Call.run_state c r with h | ⟨name, rt, h⟩
    · rw [h]; exact ih
    · rw [h]; exact RegisterName_inverse r name rt ih

theorem Reachable.keysValid {r : Registry} (h : Reachable r) : r.KeysValid := by
  induction h with
  | empty => intro T id hT; simp [Registry.empty] at hT
  | step r c _ ih =>
    rcases Call.run_state c r with h | ⟨name, rt, h⟩
    · rw [h]; exact ih
    · rw [h]; exact RegisterName_keysValid r name rt ih

set_option maxRecDepth 100000

theorem crc_pkgPoint : Checksum (str "pkg.Point") = 0x58da5686 := by decide

theorem pointRegistry_eq :
    pointRegistry = Registry.empty.insert pointType 0x58da5686 := by
  have h := RegisterName_ok_eq Registry.empty (str "pkg.Point") pointType
    (by decide) (by decide) rfl rfl
  simp only [pointRegistry, Call.run, h, newNameType, crc, crc_pkgPoint]

theorem pointRegistry_reachable : Reachable pointRegistry :=
  Reachable.step _ _ Reachable.empty

/-- The function `registerType` in terms of `RegisterName`, once the canonical name is known. -/
theorem registerType_eq (r : Registry) (rt : RType) (name : Bytes)
    (hg : GetNameByType rt = .ok name) :
    registerType rt r =
      ((RegisterName name rt r).1.map (fun _ => name), (RegisterName name rt r).2) := by
  unfold registerType
  rw [hg]
  simp only
  rcases RegisterName name rt r with ⟨res, r1⟩
  cases res <;> rfl

theorem RegisterName_dup_eq (r : Registry) (name : Bytes) (T : RType) (id : Nat)
    (hn : name ≠ []) (hv : isNilOrInvalid T = false) (hreg : r.type2name T = some id)
    (hwf : T.WellFormed = true) :
    RegisterName name T r = (.error Panic.DuplicateRegistration, r) := by
  obtain ⟨s, hs⟩ := getName_ok T hwf
  simp [RegisterName, hn, hv, hreg, GetNameByType, hs]

theorem pointType_wellFormed : pointType.WellFormed = true := by decide

/-! ## The struct loop -/

theorem mapM_ok_length {α β : Type} (f : α → Except Panic β) :
    ∀ (l : List α) (rs : List β), l.mapM f = .ok rs → rs.length = l.length
  | [], rs, h => by
    simp only [List.mapM_nil, pure, Except.pure, Except.ok.injEq] at h
    subst h
    rfl
  | x :: l, rs, h => by
    simp only [List.mapM_cons, bind, Except.bind, pure, Except.pure] at h
    cases hx : f x with
    | error e => rw [hx] at h; cases h
    | ok b =>
      rw [hx] at h
      simp only at h
      cases hl : l.mapM f with
      | error e => rw [hl] at h; cases h
      | ok bs =>
        rw [hl] at h
        simp only [Except.ok.injEq] at h
        rw [← h, List.length_cons, List.length_cons, mapM_ok_length f l bs hl]

theorem intercalate_cons_cons (sep x y : Bytes) (l : List Bytes) :
    List.intercalate sep (x :: y :: l) = x ++ sep ++ List.intercalate sep (y :: l) := by
  simp [List.intercalate, List.intersperse]

theorem intercalate_singleton (sep x : Bytes) : List.intercalate sep [x] = x := by
  simp [List.intercalate, List.intersperse]

/-- The loop over the fields of a struct, from an empty buffer: the field renderings joined
by `; ` and followed by a space. -/
theorem getNameFields_rendering : ∀ fs : Fields,
    getNameFields [] fs =
      match fs.toList.mapM fieldRendering with
      | .error e => .error e
      | .ok rs => .ok (if rs = [] then [] else List.intercalate (str "; ") rs ++ str " ")
  | .nil => rfl
  | .cons fname anonymous typ rest => by
    have ih := getNameFields_rendering rest
    have hx : (if anonymous = true then getName [] typ
          else getName ([] ++ (fname ++ str " ")) typ) = fieldRendering (fname, anonymous, typ) := by
      unfold fieldRendering GetNameByType
      cases anonymous with
      | true => cases getName [] typ <;> simp
      | false =>
        simp only [Bool.false_eq_true, if_false, List.nil_append]
        have := (getName_extends typ) (fname ++ str " ")
        simp only at this
        rw [this]
        cases getName [] typ <;> simp [Except.map]
    simp only [getNameFields, Fields.toList, List.mapM_cons, bind, Except.bind, pure, Except.pure]
    rw [hx]
    cases hf : fieldRendering (fname, anonymous, typ) with
    | error e => rfl
    | ok x =>
      simp only
      have hr := (getNameFields_extends rest)
        (if rest.NumField ≠ 0 then x ++ str "; " else x ++ str " ")
      simp only at hr
      rw [hr, ih]
      cases hm : rest.toList.mapM fieldRendering with
      | error e => rfl
      | ok rs =>
        have hlen := mapM_ok_length _ _ _ hm
        simp only [Except.map, Except.ok.injEq]
        cases rs with
        | nil =>
          have : rest.NumField = 0 := by simpa [Fields.NumField] using hlen.symm
          simp [this, intercalate_singleton]
        | cons y ys =>
          have : rest.NumField ≠ 0 := by
            simp only [Fields.NumField, ← hlen, List.length_cons]; omega
          simp [this, intercalate_cons_cons]

theorem getName_named (pfx pkgPath name : Bytes) (shape : Shape)
    (hn : name ≠ []) (hv : shape.Kind ≠ Kind.Invalid) :
    getName pfx (.mk pkgPath name shape) = .ok (appendQualified pfx pkgPath name) := by
  cases shape <;> simp_all [getName, Shape.Kind]

theorem getName_unhandled (pfx pkgPath : Bytes) (shape : Shape)
    (hv : shape.Kind ≠ Kind.Invalid) (hk : shape.Kind ∉ handledKinds) :
    getName pfx (.mk pkgPath [] shape) = .ok (appendQualified pfx pkgPath []) := by
  cases shape <;> simp_all [getName, Shape.Kind, handledKinds]

/-! ## The function and interface loops -/

theorem intercalate_nil (sep : Bytes) : List.intercalate sep ([] : List Bytes) = [] := by
  simp [List.intercalate, List.intersperse]

/-- The loop over the parameters or the results of a function type, from an empty buffer:
the signatures joined by `, `. -/
theorem getNameTypes_rendering : ∀ ts : Types,
    getNameTypes [] ts =
      match ts.toList.mapM GetNameByType with
      | .error e => .error e
      | .ok rs => .ok (List.intercalate (str ", ") rs)
  | .nil => rfl
  | .cons t rest => by
    have ih := getNameTypes_rendering rest
    simp only [getNameTypes, Types.toList, List.mapM_cons, bind, Except.bind, pure, Except.pure]
    rw [← GetNameByType]
    cases hf : GetNameByType t with
    | error e => rfl
    | ok x =>
      simp only
      have hr := (getNameTypes_extends rest) (if rest.Num ≠ 0 then x ++ str ", " else x)
      simp only at hr
      rw [hr, ih]
      cases hm : rest.toList.mapM GetNameByType with
      | error e => rfl
      | ok rs =>
        have hlen := mapM_ok_length _ _ _ hm
        simp only [Except.map, Except.ok.injEq]
        cases rs with
        | nil =>
          have : rest.Num = 0 := by simpa [Types.Num] using hlen.symm
          simp [this, intercalate_singleton, intercalate_nil]
        | cons y ys =>
          have : rest.Num ≠ 0 := by
            simp only [Types.Num, ← hlen, List.length_cons]; omega
          simp [this, intercalate_cons_cons]

theorem getName_func_rendering (pkgPath : Bytes) (ins outs : Types) :
    getName [] (.mk pkgPath [] (.Func ins outs)) = funcRendering ins.toList outs.toList := by
  have hi := (getNameTypes_extends ins) ([] ++ str "func(")
  simp only at hi
  simp only [getName, Shape.Kind, reduceCtorEq, if_false, if_true, hi,
    getNameTypes_rendering ins, funcRendering]
  cases hm : ins.toList.mapM GetNameByType with
  | error e => rfl
  | ok ps =>
    simp only [Except.map]
    generalize hp2 : (if outs.Num > 1 then
        (if outs.Num > 0 then [] ++ str "func(" ++ List.intercalate (str ", ") ps ++ str ")"
            ++ str " "
          else [] ++ str "func(" ++ List.intercalate (str ", ") ps ++ str ")") ++ str "("
        else (if outs.Num > 0 then [] ++ str "func(" ++ List.intercalate (str ", ") ps
            ++ str ")" ++ str " "
          else [] ++ str "func(" ++ List.intercalate (str ", ") ps ++ str ")")) = p2
    have ho := (getNameTypes_extends outs) p2
    simp only at ho
    rw [ho, getNameTypes_rendering outs]
    cases hr : outs.toList.mapM GetNameByType with
    | error e => rfl
    | ok rs =>
      have hlen := mapM_ok_length _ _ _ hr
      simp only [Except.map, Except.ok.injEq]
      have hsp : str " " ++ str "(" = str " (" := by decide
      subst hp2
      match rs, hlen with
      | [], hlen =>
        have h0 : outs.Num = 0 := by simpa [Types.Num] using hlen.symm
        simp [h0, intercalate_nil]
      | [r], hlen =>
        have h1 : outs.Num = 1 := by simpa [Types.Num] using hlen.symm
        simp [h1, intercalate_singleton]
      | r1 :: r2 :: rs, hlen =>
        have h2 : outs.Num > 1 := by
          simp only [Types.Num, ← hlen, List.length_cons]; omega
        have h3 : outs.Num > 0 := by omega
        simp only [h2, h3, if_true, List.nil_append, List.append_assoc]
        rw [← List.append_assoc (str " ") (str "("), hsp]

theorem removeFunc_of_func (rest : Bytes) :
    removeFunc (str "func(" ++ rest) = (str "func(" ++ rest).drop 4 := by
  rfl

theorem funcRendering_shape (ins outs : List RType) (fn : Bytes)
    (h : funcRendering ins outs = .ok fn) :
    ∃ rest, fn = str "func(" ++ rest ∧ 1 ≤ rest.length := by
  unfold funcRendering at h
  cases hi : ins.mapM GetNameByType with
  | error e => rw [hi] at h; cases h
  | ok ps =>
    rw [hi] at h
    cases ho : outs.mapM GetNameByType with
    | error e => rw [ho] at h; cases h
    | ok rs =>
      rw [ho] at h
      simp only [Except.ok.injEq] at h
      subst h
      have hlen1 : (str ")").length = 1 := by decide
      exact ⟨_, (by simp only [List.append_assoc]; rfl),
        (by simp only [List.length_append, hlen1]; omega)⟩

theorem unnamedFunc_shape (t : RType) (fn : Bytes) (ht : isUnnamedFunc t = true)
    (h : getName [] t = .ok fn) : ∃ rest, fn = str "func(" ++ rest ∧ 1 ≤ rest.length := by
  match t, ht with
  | .mk p [] (.Func ins outs), _ =>
    rw [getName_func_rendering] at h
    exact funcRendering_shape _ _ _ h

/-- The loop over the methods of an interface whose method types are unnamed function
types, from an empty buffer: the method renderings joined by `; ` and followed
by a space. -/
theorem getNameMethods_rendering : ∀ ms : Methods,
    (∀ m ∈ ms.toList, isUnnamedFunc m.2 = true) →
    getNameMethods [] ms =
      match ms.toList.mapM methodRendering with
      | .error e => .error e
      | .ok rs => .ok (if rs = [] then [] else List.intercalate (str "; ") rs ++ str " ")
  | .nil, _ => rfl
  | .cons mname typ rest, hall => by
    have ht : isUnnamedFunc typ = true := hall (mname, typ) (by simp [Methods.toList])
    have ih := getNameMethods_rendering rest
      (fun m hm => hall m (by simp [Methods.toList, hm]))
    simp only [getNameMethods, Methods.toList, List.mapM_cons, bind, Except.bind, pure,
      Except.pure, methodRendering, GetNameByType]
    cases hf : getName [] typ with
    | error e => rfl
    | ok fn =>
      obtain ⟨tail, hfn, _⟩ := unnamedFunc_shape typ fn ht hf
      have hlen4 : ¬ fn.length < 4 := getName_unnamedFunc_length typ fn ht hf
      have hrm : removeFunc fn = fn.drop 4 := by rw [hfn]; rfl
      simp only [hlen4, if_false, hrm, List.nil_append]
      have hr := (getNameMethods_extends rest)
        (if rest.NumMethod ≠ 0 then mname ++ List.drop 4 fn ++ str "; "
          else mname ++ List.drop 4 fn ++ str " ")
      simp only at hr
      rw [hr, ih]
      cases hm : rest.toList.mapM methodRendering with
      | error e => rfl
      | ok rs =>
        have hlen := mapM_ok_length _ _ _ hm
        simp only [Except.map, Except.ok.injEq]
        cases rs with
        | nil =>
          have : rest.NumMethod = 0 := by simpa [Methods.NumMethod] using hlen.symm
          simp [this, intercalate_singleton]
        | cons y ys =>
          have : rest.NumMethod ≠ 0 := by
            simp only [Methods.NumMethod, ← hlen, List.length_cons]; omega
          simp [this, intercalate_cons_cons]

theorem getName_interface_rendering (pkgPath : Bytes) (ms : Methods)
    (hall : ∀ m ∈ ms.toList, isUnnamedFunc m.2 = true) :
    getName [] (.mk pkgPath [] (.Interface ms)) = interfaceRendering ms.toList := by
  have h1 : str "interface \x7b" ++ str "\x7d" = str "interface \x7b\x7d" := by decide
  have h2 : ∀ b : Bytes, str "interface \x7b" ++ str " " ++ b = str "interface \x7b " ++ b := by
    intro b; rfl
  have h3 : str " " ++ str "\x7d" = str " \x7d" := by decide
  have he := (getNameMethods_extends ms)
    (if ms.NumMethod > 0 then [] ++ str "interface \x7b" ++ str " "
      else [] ++ str "interface \x7b")
  simp only at he
  simp only [getName, Shape.Kind, reduceCtorEq, if_false, if_true, he,
    getNameMethods_rendering ms hall, interfaceRendering]
  cases hm : ms.toList.mapM methodRendering with
  | error e => rfl
  | ok rs =>
    have hlen := mapM_ok_length _ _ _ hm
    simp only [Except.map, Except.ok.injEq]
    cases rs with
    | nil =>
      have : ms.toList.length = 0 := by simpa using hlen.symm
      simp [Methods.NumMethod, this, h1]
    | cons y ys =>
      have : ms.toList.length ≠ 0 := by
        simp only [← hlen, List.length_cons]; omega
      have hpos : ms.toList.length > 0 := Nat.pos_of_ne_zero this
      simp only [Methods.NumMethod, hpos, this, if_true, if_false, List.nil_append,
        reduceCtorEq, List.append_assoc, h3]
      rw [← List.append_assoc, h2]

theorem mapM_ok_of_forall {α β : Type} (f : α → Except Panic β) :
    ∀ l : List α, (∀ a ∈ l, ∃ b, f a = .ok b) → ∃ bs, l.mapM f = .ok bs
  | [], _ => ⟨[], rfl⟩
  | x :: l, h => by
    obtain ⟨b, hb⟩ := h x (by simp)
    obtain ⟨bs, hbs⟩ := mapM_ok_of_forall f l (fun a ha => h a (by simp [ha]))
    refine ⟨b :: bs, ?_⟩
    rw [List.mapM_cons, hb, hbs]
    rfl

/-! ## The depth of the recursion -/

theorem RType.signatureDepth_pos (t : RType) : 1 ≤ t.signatureDepth := by
  cases t with
  | nil => simp [RType.signatureDepth]
  | mk p n s =>
    cases s <;> simp only [RType.signatureDepth] <;> split <;> (try split) <;> omega

mutual
theorem getNameBounded_of_le : ∀ (t : RType) (n : Nat) (pfx : Bytes),
    t.signatureDepth ≤ n → getNameBounded n pfx t = some (getName pfx t)
  | .nil, n, pfx, h => by
    cases n with
    | zero => simp [RType.signatureDepth] at h
    | succ d => simp [getNameBounded, getName]
  | .mk pkgPath name shape, n, pfx, h => by
    cases n with
    | zero =>
      have := RType.signatureDepth_pos (.mk pkgPath name shape)
      omega
    | succ d =>
      by_cases hn : name = []
      swap
      · cases shape <;> simp only [getNameBounded, getName, hn, if_false] <;> split <;> rfl
      subst hn
      cases shape with
      | Invalid => simp [getNameBounded, getName, Shape.Kind]
      | Scalar k => simp only [getNameBounded, getName]; split <;> rfl
      | Chan elem => simp [getNameBounded, getName, Shape.Kind]
      | Ptr elem =>
        simp only [RType.signatureDepth, Shape.Kind, reduceCtorEq, if_false, if_true] at h
        simp only [getNameBounded, getName, Shape.Kind, reduceCtorEq, if_false, if_true]
        exact getNameBounded_of_le elem d _ (by omega)
      | Array len elem =>
        simp only [RType.signatureDepth, Shape.Kind, reduceCtorEq, if_false, if_true] at h
        simp only [getNameBounded, getName, Shape.Kind, reduceCtorEq, if_false, if_true]
        exact getNameBounded_of_le elem d _ (by omega)
      | Slice elem =>
        simp only [RType.signatureDepth, Shape.Kind, reduceCtorEq, if_false, if_true] at h
        simp only [getNameBounded, getName, Shape.Kind, reduceCtorEq, if_false, if_true]
        exact getNameBounded_of_le elem d _ (by omega)
      | Struct fields =>
        simp only [RType.signatureDepth, Shape.Kind, reduceCtorEq, if_false, if_true] at h
        simp only [getNameBounded, getName, Shape.Kind, reduceCtorEq, if_false, if_true]
        rw [getNameFieldsBounded_of_le fields d _ (by omega)]
        cases getNameFields _ fields <;> rfl
      | Map key elem =>
        simp only [RType.signatureDepth, Shape.Kind, reduceCtorEq, if_false, if_true] at h
        simp only [getNameBounded, getName, Shape.Kind, reduceCtorEq, if_false, if_true]
        rw [getNameBounded_of_le key d _ (by omega)]
        cases getName (pfx ++ str "map[") key with
        | error e => rfl
        | ok inner => exact getNameBounded_of_le elem d _ (by omega)
      | Interface methods =>
        simp only [RType.signatureDepth, Shape.Kind, reduceCtorEq, if_false, if_true] at h
        simp only [getNameBounded, getName, Shape.Kind, reduceCtorEq, if_false, if_true]
        rw [getNameMethodsBounded_of_le methods d _ (by omega)]
        cases getNameMethods _ methods <;> rfl
      | Func ins outs =>
        simp only [RType.signatureDepth, Shape.Kind, reduceCtorEq, if_false, if_true] at h
        simp only [getNameBounded, getName, Shape.Kind, reduceCtorEq, if_false, if_true]
        rw [getNameTypesBounded_of_le ins d _ (by omega)]
        cases getNameTypes (pfx ++ str "func(") ins with
        | error e => rfl
        | ok p1 =>
          simp only
          rw [getNameTypesBounded_of_le outs d _ (by omega)]
          cases getNameTypes _ outs <;> rfl
theorem getNameFieldsBounded_of_le : ∀ (fs : Fields) (d : Nat) (pfx : Bytes),
    fs.maxDepth ≤ d → getNameFieldsBounded d pfx fs = some (getNameFields pfx fs)
  | .nil, d, pfx, _ => by simp [getNameFieldsBounded, getNameFields]
  | .cons fname anonymous typ rest, d, pfx, h => by
    simp only [Fields.maxDepth] at h
    have ht := getNameBounded_of_le typ d
    have hr := getNameFieldsBounded_of_le rest d
    simp only [getNameFieldsBounded, getNameFields]
    rw [ht _ (by omega), ht _ (by omega)]
    cases anonymous with
    | true =>
      simp only [if_true]
      cases getName pfx typ with
      | error e => rfl
      | ok p1 => exact hr _ (by omega)
    | false =>
      simp only [Bool.false_eq_true, if_false]
      cases getName (pfx ++ (fname ++ str " ")) typ with
      | error e => rfl
      | ok p1 => exact hr _ (by omega)
theorem getNameMethodsBounded_of_le : ∀ (ms : Methods) (d : Nat) (pfx : Bytes),
    ms.maxDepth ≤ d → getNameMethodsBounded d pfx ms = some (getNameMethods pfx ms)
  | .nil, d, pfx, _ => by simp [getNameMethodsBounded, getNameMethods]
  | .cons mname typ rest, d, pfx, h => by
    simp only [Methods.maxDepth] at h
    have hr := getNameMethodsBounded_of_le rest d
    simp only [getNameMethodsBounded, getNameMethods]
    rw [getNameBounded_of_le typ d _ (by omega)]
    cases getName [] typ with
    | error e => rfl
    | ok fn =>
      simp only
      split
      · rfl
      · exact hr _ (by omega)
theorem getNameTypesBounded_of_le : ∀ (ts : Types) (d : Nat) (pfx : Bytes),
    ts.maxDepth ≤ d → getNameTypesBounded d pfx ts = some (getNameTypes pfx ts)
  | .nil, d, pfx, _ => by simp [getNameTypesBounded, getNameTypes]
  | .cons t rest, d, pfx, h => by
    simp only [Types.maxDepth] at h
    have hr := getNameTypesBounded_of_le rest d
    simp only [getNameTypesBounded, getNameTypes]
    rw [getNameBounded_of_le t d _ (by omega)]
    cases getName pfx t with
    | error e => rfl
    | ok p1 => exact hr _ (by omega)
end

theorem getName_ok_at (t : RType) (hwf : t.WellFormed = true) (p : Bytes) :
    ∃ s, getName p t = .ok s := by
  obtain ⟨s, hs⟩ := getName_ok t hwf
  exact ⟨_, (getName_extends t).ok hs p⟩

theorem getNameTypes_ok_at (ts : Types) (hwf : ts.WellFormed = true) (p : Bytes) :
    ∃ s, getNameTypes p ts = .ok s := by
  obtain ⟨s, hs⟩ := getNameTypes_ok ts hwf
  exact ⟨_, (getNameTypes_extends ts).ok hs p⟩

mutual
theorem getNameBounded_of_lt : ∀ (t : RType) (n : Nat) (pfx : Bytes),
    t.WellFormed = true → n < t.signatureDepth → getNameBounded n pfx t = none
  | .nil, n, pfx, _, h => by
    simp only [RType.signatureDepth] at h
    have : n = 0 := by omega
    subst this
    simp [getNameBounded]
  | .mk pkgPath name shape, n, pfx, hwf, h => by
    cases n with
    | zero => simp [getNameBounded]
    | succ d =>
      simp only [RType.WellFormed] at hwf
      by_cases hn : name = []
      swap
      · exfalso
        cases shape <;> simp only [RType.signatureDepth, hn, if_false] at h <;>
          split at h <;> omega
      subst hn
      cases shape with
      | Invalid =>
        simp only [RType.signatureDepth, Shape.Kind, if_true] at h
        omega
      | Scalar k =>
        exfalso
        simp only [RType.signatureDepth] at h
        split at h <;> simp at h
      | Chan elem =>
        simp only [RType.signatureDepth, Shape.Kind, reduceCtorEq, if_false, if_true] at h
        omega
      | Ptr elem =>
        simp only [Shape.WellFormed] at hwf
        simp only [RType.signatureDepth, Shape.Kind, reduceCtorEq, if_false, if_true] at h
        simp only [getNameBounded, Shape.Kind, reduceCtorEq, if_false, if_true]
        exact getNameBounded_of_lt elem d _ hwf (by omega)
      | Array len elem =>
        simp only [Shape.WellFormed] at hwf
        simp only [RType.signatureDepth, Shape.Kind, reduceCtorEq, if_false, if_true] at h
        simp only [getNameBounded, Shape.Kind, reduceCtorEq, if_false, if_true]
        exact getNameBounded_of_lt elem d _ hwf (by omega)
      | Slice elem =>
        simp only [Shape.WellFormed] at hwf
        simp only [RType.signatureDepth, Shape.Kind, reduceCtorEq, if_false, if_true] at h
        simp only [getNameBounded, Shape.Kind, reduceCtorEq, if_false, if_true]
        exact getNameBounded_of_lt elem d _ hwf (by omega)
      | Struct fields =>
        simp only [Shape.WellFormed] at hwf
        simp only [RType.signatureDepth, Shape.Kind, reduceCtorEq, if_false, if_true] at h
        simp only [getNameBounded, Shape.Kind, reduceCtorEq, if_false, if_true]
        rw [getNameFieldsBounded_of_lt fields d _ hwf (by omega)]
      | Map key elem =>
        simp only [Shape.WellFormed, Bool.and_eq_true] at hwf
        simp only [RType.signatureDepth, Shape.Kind, reduceCtorEq, if_false, if_true] at h
        simp only [getNameBounded, Shape.Kind, reduceCtorEq, if_false, if_true]
        by_cases hk : d < key.signatureDepth
        · rw [getNameBounded_of_lt key d _ hwf.1 hk]
        · rw [getNameBounded_of_le key d _ (by omega)]
          obtain ⟨inner, hi⟩ := getName_ok_at key hwf.1 (pfx ++ str "map[")
          rw [hi]
          exact getNameBounded_of_lt elem d _ hwf.2 (by omega)
      | Interface methods =>
        simp only [Shape.WellFormed] at hwf
        simp only [RType.signatureDepth, Shape.Kind, reduceCtorEq, if_false, if_true] at h
        simp only [getNameBounded, Shape.Kind, reduceCtorEq, if_false, if_true]
        rw [getNameMethodsBounded_of_lt methods d _ hwf (by omega)]
      | Func ins outs =>
        simp only [Shape.WellFormed, Bool.and_eq_true] at hwf
        simp only [RType.signatureDepth, Shape.Kind, reduceCtorEq, if_false, if_true] at h
        simp only [getNameBounded, Shape.Kind, reduceCtorEq, if_false, if_true]
        by_cases hk : d < ins.maxDepth
        · rw [getNameTypesBounded_of_lt ins d _ hwf.1 hk]
        · rw [getNameTypesBounded_of_le ins d _ (by omega)]
          obtain ⟨p1, hi⟩ := getNameTypes_ok_at ins hwf.1 (pfx ++ str "func(")
          rw [hi]
          simp only
          rw [getNameTypesBounded_of_lt outs d _ hwf.2 (by omega)]
theorem getNameFieldsBounded_of_lt : ∀ (fs : Fields) (d : Nat) (pfx : Bytes),
    fs.WellFormed = true → d < fs.maxDepth → getNameFieldsBounded d pfx fs = none
  | .nil, d, pfx, _, h => by simp [Fields.maxDepth] at h
  | .cons fname anonymous typ rest, d, pfx, hwf, h => by
    simp only [Fields.WellFormed, Bool.and_eq_true] at hwf
    simp only [Fields.maxDepth] at h
    simp only [getNameFieldsBounded]
    by_cases hk : d < typ.signatureDepth
    · rw [getNameBounded_of_lt typ d _ hwf.1 hk, getNameBounded_of_lt typ d _ hwf.1 hk]
      simp
    · rw [getNameBounded_of_le typ d _ (by omega), getNameBounded_of_le typ d _ (by omega)]
      obtain ⟨s1, h1⟩ := getName_ok_at typ hwf.1 pfx
      obtain ⟨s2, h2⟩ := getName_ok_at typ hwf.1 (pfx ++ (fname ++ str " "))
      rw [h1, h2]
      cases anonymous with
      | true => exact getNameFieldsBounded_of_lt rest d _ hwf.2 (by omega)
      | false => exact getNameFieldsBounded_of_lt rest d _ hwf.2 (by omega)
theorem getNameMethodsBounded_of_lt : ∀ (ms : Methods) (d : Nat) (pfx : Bytes),
    ms.WellFormed = true → d < ms.maxDepth → getNameMethodsBounded d pfx ms = none
  | .nil, d, pfx, _, h => by simp [Methods.maxDepth] at h
  | .cons mname typ rest, d, pfx, hwf, h => by
    simp only [Methods.WellFormed, Bool.and_eq_true] at hwf
    simp only [Methods.maxDepth] at h
    simp only [getNameMethodsBounded]
    by_cases hk : d < typ.signatureDepth
    · rw [getNameBounded_of_lt typ d _ hwf.1.2 hk]
    · rw [getNameBounded_of_le typ d _ (by omega)]
      obtain ⟨fn, hfn⟩ := getName_ok typ hwf.1.2
      have hlen := getName_unnamedFunc_length typ fn hwf.1.1 hfn
      rw [hfn]
      simp only [hlen, if_false]
      exact getNameMethodsBounded_of_lt rest d _ hwf.2 (by omega)
theorem getNameTypesBounded_of_lt : ∀ (ts : Types) (d : Nat) (pfx : Bytes),
    ts.WellFormed = true → d < ts.maxDepth → getNameTypesBounded d pfx ts = none
  | .nil, d, pfx, _, h => by simp [Types.maxDepth] at h
  | .cons t rest, d, pfx, hwf, h => by
    simp only [Types.WellFormed, Bool.and_eq_true] at hwf
    simp only [Types.maxDepth] at h
    simp only [getNameTypesBounded]
    by_cases hk : d < t.signatureDepth
    · rw [getNameBounded_of_lt t d _ hwf.1 hk]
    · rw [getNameBounded_of_le t d _ (by omega)]
      obtain ⟨s1, h1⟩ := getName_ok_at t hwf.1 pfx
      rw [h1]
      exact getNameTypesBounded_of_lt rest d _ hwf.2 (by omega)
end

/-! ## Identifier 0 -/

theorem crc_zeroName : Checksum zeroName = 0 := by decide

theorem Registry.insert_zeroFree (r : Registry) (rt : RType) (nt : Nat)
    (h : r.ZeroFree) (hnt : nt ≠ 0) : (r.insert rt nt).ZeroFree := by
  constructor
  · simp only [Registry.insert, Function.update_apply]
    rw [if_neg (Ne.symm hnt)]
    exact h.1
  · intro T
    simp only [Registry.insert, Function.update_apply]
    split
    · intro heq
      exact hnt (Option.some.inj heq)
    · exact h.2 T

theorem RegisterName_zeroFree (r : Registry) (name : Bytes) (rt : RType)
    (h : r.ZeroFree) (hc : Checksum name ≠ 0) : (RegisterName name rt r).2.ZeroFree := by
  rcases RegisterName_cases r name rt with ⟨e, he⟩ | ⟨_, _, _, _, hok⟩
  · rw [he]; exact h
  · rw [hok]; exact Registry.insert_zeroFree r rt _ h hc

theorem ReachableNonzero.zeroFree {r : Registry} (h : ReachableNonzero r) : r.ZeroFree := by
  induction h with
  | empty => exact ⟨rfl, fun T => by simp [Registry.empty]⟩
  | step r c _ hc ih =>
    cases c with
    | RegisterName name rt =>
      exact RegisterName_zeroFree r name rt ih (hc name rfl)
    | Register i =>
      simp only [Call.run, Register]
      cases hg : GetNameByType (TypeOf i) with
      | error e =>
        have : registerType (TypeOf i) r = (.error e, r) := by simp [registerType, hg]
        rw [this]; exact ih
      | ok nm =>
        rw [registerType_eq r (TypeOf i) nm hg]
        exact RegisterName_zeroFree r nm (TypeOf i) ih (hc nm hg)

theorem pointRegistry_reachableNonzero : ReachableNonzero pointRegistry :=
  ReachableNonzero.step _ _ ReachableNonzero.empty (by
    intro n hn
    simp only [Call.name, Except.ok.injEq] at hn
    subst hn
    rw [crc_pkgPoint]
    decide)

/-! ## The claims -/

/-- C1. In every registry state reachable from the empty registry by `RegisterName` /
`Register` calls (failed ones included), `type2name` and `name2type` are mutually
inverse; hence looking the identifier of a registered type up in `name2type`
gives the type back, and two registered types with the same identifier are the
same type. -/
theorem registry_bijection (r : Registry) (h : Reachable r) :
    (∀ T id, r.type2name T = some id ↔ r.name2type id = some T) ∧
    (∀ T, (r.type2name T).isSome → (r.type2name T).bind r.name2type = some T) ∧
    (∀ T1 T2 id, r.type2name T1 = some id → r.type2name T2 = some id → T1 = T2) := by
  have hi := h.inverse
  refine ⟨hi, ?_, ?_⟩
  · intro T hT
    obtain ⟨id, hid⟩ := Option.isSome_iff_exists.mp hT
    rw [hid, Option.some_bind]
    exact (hi T id).mp hid
  · intro T1 T2 id h1 h2
    have e1 := (hi T1 id).mp h1
    have e2 := (hi T2 id).mp h2
    rw [e1] at e2
    exact Option.some.inj e2

theorem registry_bijection_witness :
    Reachable pointRegistry ∧
    ((∀ T id, pointRegistry.type2name T = some id ↔ pointRegistry.name2type id = some T) ∧
     (∀ T, (pointRegistry.type2name T).isSome →
        (pointRegistry.type2name T).bind pointRegistry.name2type = some T) ∧
     (∀ T1 T2 id, pointRegistry.type2name T1 = some id →
        pointRegistry.type2name T2 = some id → T1 = T2)) :=
  ⟨pointRegistry_reachable, registry_bijection pointRegistry pointRegistry_reachable⟩

/-- C2. A registration of a valid, not yet registered type under a non-empty name whose
CRC-32/IEEE checksum is not yet a key of `name2type` succeeds, and the registry
it leaves is the previous one with exactly the two entries
`type2name[rt] = Checksum name` and `name2type[Checksum name] = rt` added, every
other entry unchanged; under the name `"pkg.Point"` the identifier is the
CRC-32 of that byte string, `0x58da5686`. -/
theorem RegisterName_success (r : Registry) (name : Bytes) (rt : RType)
    (hn : name ≠ []) (hv : isNilOrInvalid rt = false)
    (ht : r.type2name rt = none) (hc : r.name2type (Checksum name) = none) :
    RegisterName name rt r =
      (.ok (), { type2name := Function.update r.type2name rt (some (Checksum name)),
                 name2type := Function.update r.name2type (Checksum name) (some rt) }) ∧
    (RegisterName name rt r).2.type2name rt = some (Checksum name) ∧
    (RegisterName name rt r).2.name2type (Checksum name) = some rt ∧
    (∀ T, T ≠ rt → (RegisterName name rt r).2.type2name T = r.type2name T) ∧
    (∀ id, id ≠ Checksum name → (RegisterName name rt r).2.name2type id = r.name2type id) ∧
    (name = str "pkg.Point" → (RegisterName name rt r).2.type2name rt = some 0x58da5686) := by
  have h := RegisterName_ok_eq r name rt hn hv ht hc
  simp only [newNameType, crc, Registry.insert] at h
  rw [h]
  refine ⟨rfl, ?_, ?_, ?_, ?_, ?_⟩
  · simp
  · simp
  · intro T hT; simp [Function.update_apply, hT]
  · intro id hid; simp [Function.update_apply, hid]
  · intro hname
    subst hname
    simp [crc_pkgPoint]

theorem RegisterName_success_witness :
    (RegisterName (str "pkg.Point") pointType Registry.empty).2.type2name pointType
      = some (Checksum (str "pkg.Point")) ∧
    (RegisterName (str "pkg.Point") pointType Registry.empty).2.type2name pointType
      = some 0x58da5686 :=
  have h := RegisterName_success Registry.empty (str "pkg.Point") pointType
    (by decide) (by decide) rfl rfl
  ⟨h.2.1, h.2.2.2.2.2 rfl⟩

/-- C3. When the identifier computed from a non-empty name is already a key of
`name2type`, registering a valid, not yet registered type under that name fails
with `IdentifierCollision` and leaves the registry as it was: the identifier
still maps to the old type and the new type has no entry. In a reachable
registry the old type is a different type. -/
theorem RegisterName_collision (r : Registry) (name : Bytes) (rt old : RType)
    (hn : name ≠ []) (hv : isNilOrInvalid rt = false)
    (ht : r.type2name rt = none) (hc : r.name2type (newNameType name) = some old) :
    RegisterName name rt r = (.error Panic.IdentifierCollision, r) ∧
    (RegisterName name rt r).2.name2type (newNameType name) = some old ∧
    (RegisterName name rt r).2.type2name rt = none ∧
    (Reachable r → old ≠ rt) := by
  have h : RegisterName name rt r = (.error Panic.IdentifierCollision, r) := by
    simp [RegisterName, hn, hv, ht, hc]
  rw [h]
  refine ⟨rfl, hc, ht, ?_⟩
  intro hr heq
  subst heq
  have := (hr.inverse old (newNameType name)).mpr hc
  rw [ht] at this
  cases this

theorem RegisterName_collision_witness :
    RegisterName (str "pkg.Point") intType pointRegistry
      = (.error Panic.IdentifierCollision, pointRegistry) ∧
    (RegisterName (str "pkg.Point") intType pointRegistry).2.name2type
      (newNameType (str "pkg.Point")) = some pointType ∧
    (RegisterName (str "pkg.Point") intType pointRegistry).2.type2name intType = none ∧
    pointType ≠ intType :=
  have h := RegisterName_collision pointRegistry (str "pkg.Point") intType pointType
    (by decide) (by decide)
    (by rw [pointRegistry_eq]
        simp [Registry.insert, Registry.empty, Function.update_apply]
        decide)
    (by rw [pointRegistry_eq]
        simp [Registry.insert, Function.update_apply, newNameType, crc, crc_pkgPoint])
  ⟨h.1, h.2.1, h.2.2.1, h.2.2.2 pointRegistry_reachable⟩

/-- C4. In a reachable registry in which the type `T` is registered, `RegisterName(name, T)`
fails with `DuplicateRegistration` for every non-empty name, whatever identifier
the name hashes to, and leaves the registry as it was; `T` ranges over the
types `reflect` hands out (`WellFormed`). In particular a second `Register` of a
value of the same type, right after a successful one, fails with
`DuplicateRegistration`. -/
theorem RegisterName_duplicate (r : Registry) (hr : Reachable r) (T : RType) (id : Nat)
    (hreg : r.type2name T = some id) (hwf : T.WellFormed = true)
    (name : Bytes) (hn : name ≠ []) :
    RegisterName name T r = (.error Panic.DuplicateRegistration, r) ∧
    (∀ (i j : Any) (r0 : Registry) (n : Bytes), TypeOf i = T → TypeOf j = T →
      (Register i r0).1 = .ok n →
      Register j (Register i r0).2 = (.error Panic.DuplicateRegistration, (Register i r0).2)) := by
  refine ⟨RegisterName_dup_eq r name T id hn (hr.keysValid T id hreg) hreg hwf, ?_⟩
  intro i j r0 n hi hj hok
  obtain ⟨s, hs⟩ := getName_ok T hwf
  have hg : GetNameByType T = .ok s := hs
  have e2 : ∀ (k : Any) (r1 : Registry), TypeOf k = T → Register k r1 =
      ((RegisterName s T r1).1.map (fun _ => s), (RegisterName s T r1).2) := by
    intro k r1 hk
    rw [Register, hk]
    exact registerType_eq r1 T s hg
  rw [e2 j _ hj, e2 i r0 hi]
  rw [e2 i r0 hi] at hok
  simp only at hok ⊢
  rcases RegisterName_cases r0 s T with ⟨e, h⟩ | ⟨hsn, hv, _, _, h⟩
  · rw [h] at hok; cases hok
  · rw [h]
    have hd := RegisterName_dup_eq (r0.insert T (newNameType s)) s T (newNameType s) hsn hv
      (by simp [Registry.insert]) hwf
    rw [hd]
    rfl

theorem RegisterName_duplicate_witness :
    RegisterName (str "pkg.Point") pointType pointRegistry
      = (.error Panic.DuplicateRegistration, pointRegistry) ∧
    RegisterName (str "other.Name") pointType pointRegistry
      = (.error Panic.DuplicateRegistration, pointRegistry) ∧
    Register ⟨pointType⟩ (Register ⟨pointType⟩ Registry.empty).2
      = (.error Panic.DuplicateRegistration, (Register ⟨pointType⟩ Registry.empty).2) :=
  have hreg : pointRegistry.type2name pointType = some 0x58da5686 := by
    rw [pointRegistry_eq]; simp [Registry.insert]
  ⟨(RegisterName_duplicate pointRegistry pointRegistry_reachable pointType 0x58da5686
      hreg pointType_wellFormed (str "pkg.Point") (by decide)).1,
   (RegisterName_duplicate pointRegistry pointRegistry_reachable pointType 0x58da5686
      hreg pointType_wellFormed (str "other.Name") (by decide)).1,
   (RegisterName_duplicate pointRegistry pointRegistry_reachable pointType 0x58da5686
      hreg pointType_wellFormed (str "other.Name") (by decide)).2
      ⟨pointType⟩ ⟨pointType⟩ Registry.empty (str "pkg.Point") rfl rfl (by decide)⟩

/-- C5. A call of `RegisterName` either returns and has inserted both directions, or
panics and leaves both maps exactly as they were; `type2name` changes if and
only if `name2type` changes. -/
theorem RegisterName_atomic (r : Registry) (name : Bytes) (rt : RType) :
    (RegisterName name rt r =
        (.ok (), { type2name := Function.update r.type2name rt (some (newNameType name)),
                   name2type := Function.update r.name2type (newNameType name) (some rt) }) ∨
      ∃ e, RegisterName name rt r = (.error e, r)) ∧
    ((RegisterName name rt r).2.type2name ≠ r.type2name ↔
      (RegisterName name rt r).2.name2type ≠ r.name2type) := by
  rcases RegisterName_cases r name rt with ⟨e, h⟩ | ⟨_, _, ht, hc, h⟩
  · rw [h]
    exact ⟨Or.inr ⟨e, rfl⟩, by simp⟩
  · rw [h]
    refine ⟨Or.inl rfl, ?_⟩
    have h1 : (r.insert rt (newNameType name)).type2name ≠ r.type2name := by
      intro heq
      have := congrFun heq rt
      simp [Registry.insert, ht] at this
    have h2 : (r.insert rt (newNameType name)).name2type ≠ r.name2type := by
      intro heq
      have := congrFun heq (newNameType name)
      simp [Registry.insert, hc] at this
    exact ⟨fun _ => h2, fun _ => h1⟩

/-- C6. The function `getNameOfType(rt)` returns `type2name[rt]` when `rt` is a key of `type2name`;
it fails with `UnregisteredType` only when `rt` is not a key, and when `rt` is not
a key it does fail so for every type `reflect` hands out (`WellFormed`), as on
the empty registry and for the nil type; it leaves the registry unchanged and
registers nothing. -/
theorem getNameOfType_spec (r : Registry) (rt : RType) :
    (∀ id, r.type2name rt = some id → getNameOfType rt r = (.ok id, r)) ∧
    ((getNameOfType rt r).1 = .error Panic.UnregisteredType → r.type2name rt = none) ∧
    (getNameOfType rt r).2 = r ∧
    (rt.WellFormed = true →
      ((getNameOfType rt r).1 = .error Panic.UnregisteredType ↔ r.type2name rt = none)) ∧
    (rt.WellFormed = true →
      getNameOfType rt Registry.empty = (.error Panic.UnregisteredType, Registry.empty)) ∧
    (r.type2name RType.nil = none →
      getNameOfType RType.nil r = (.error Panic.UnregisteredType, r)) := by
  have hnone : ∀ r0 : Registry, rt.WellFormed = true → r0.type2name rt = none →
      getNameOfType rt r0 = (.error Panic.UnregisteredType, r0) := by
    intro r0 hwf h0
    obtain ⟨s, hs⟩ := getName_ok rt hwf
    simp [getNameOfType, h0, GetNameByType, hs]
  have hkey : (getNameOfType rt r).1 = .error Panic.UnregisteredType →
      r.type2name rt = none := by
    intro h
    cases ht : r.type2name rt with
    | none => rfl
    | some id => simp [getNameOfType, ht] at h
  refine ⟨?_, hkey, ?_, ?_, fun hwf => hnone _ hwf rfl, ?_⟩
  · intro id hid
    simp [getNameOfType, hid]
  · cases ht : r.type2name rt with
    | none =>
      cases hg : GetNameByType rt <;> simp [getNameOfType, ht, hg]
    | some id => simp [getNameOfType, ht]
  · intro hwf
    exact ⟨hkey, fun h => by rw [hnone r hwf h]⟩
  · intro h
    simp [getNameOfType, h, GetNameByType, getName]

theorem getNameOfType_spec_witness :
    getNameOfType pointType pointRegistry = (.ok 0x58da5686, pointRegistry) ∧
    getNameOfType intType pointRegistry = (.error Panic.UnregisteredType, pointRegistry) ∧
    getNameOfType pointType Registry.empty
      = (.error Panic.UnregisteredType, Registry.empty) ∧
    getNameOfType RType.nil pointRegistry = (.error Panic.UnregisteredType, pointRegistry) :=
  have hp : pointRegistry.type2name pointType = some 0x58da5686 := by
    rw [pointRegistry_eq]; simp [Registry.insert]
  have hi : pointRegistry.type2name intType = none := by
    rw [pointRegistry_eq]
    simp [Registry.insert, Registry.empty, Function.update_apply]
    decide
  have hnil : pointRegistry.type2name RType.nil = none := by
    rw [pointRegistry_eq]
    simp [Registry.insert, Registry.empty, Function.update_apply]
    decide
  ⟨(getNameOfType_spec pointRegistry pointType).1 _ hp,
   Prod.ext (((getNameOfType_spec pointRegistry intType).2.2.2.1 (by decide)).mpr hi)
     (getNameOfType_spec pointRegistry intType).2.2.1,
   (getNameOfType_spec Registry.empty pointType).2.2.2.2.1 pointType_wellFormed,
   (getNameOfType_spec pointRegistry RType.nil).2.2.2.2.2 hnil⟩

/-- C7. Registering under the empty name fails with `EmptyName` for every registry and
every type descriptor (valid, nil or invalid, registered or not), and leaves the
registry as it was. -/
theorem RegisterName_empty_name (r : Registry) (rt : RType) :
    RegisterName (str "") rt r = (.error Panic.EmptyName, r) ∧
    RegisterName [] rt r = (.error Panic.EmptyName, r) := by
  constructor <;> simp [RegisterName, str]

/-- C8. For every registry, `Register(nil)` fails with `InvalidType`: the canonical name
computed for the nil type is the non-empty `"<nil>"`. So does `Register` on any
value whose type is nil or invalid, and so does `RegisterName` with a non-empty
name and a nil or invalid type. -/
theorem Register_invalid (r : Registry) (name : Bytes) (rt : RType) (i : Any)
    (hn : name ≠ []) (hv : isNilOrInvalid rt = true)
    (hi : isNilOrInvalid (TypeOf i) = true) :
    Register ⟨RType.nil⟩ r = (.error Panic.InvalidType, r) ∧
    GetNameByType RType.nil = .ok (str "<nil>") ∧
    str "<nil>" ≠ [] ∧
    Register i r = (.error Panic.InvalidType, r) ∧
    RegisterName name rt r = (.error Panic.InvalidType, r) := by
  have hnil : str "<nil>" ≠ [] := by decide
  have hreg : ∀ t, isNilOrInvalid t = true →
      registerType t r = (.error Panic.InvalidType, r) := by
    intro t htv
    have hg : GetNameByType t = .ok (str "<nil>") := by
      cases t with
      | nil => simp [GetNameByType, getName]
      | mk p n s =>
        have hk : s.Kind = Kind.Invalid := by simpa [isNilOrInvalid] using htv
        rw [(Shape.Kind_eq_Invalid s).mp hk]
        simp [GetNameByType, getName, Shape.Kind]
    simp [registerType, hg, RegisterName, hnil, htv]
  refine ⟨hreg _ rfl, ?_, hnil, hreg _ hi, ?_⟩
  · simp [GetNameByType, getName]
  · simp [RegisterName, hn, hv]

theorem Register_invalid_witness :
    Register ⟨RType.nil⟩ pointRegistry = (.error Panic.InvalidType, pointRegistry) ∧
    GetNameByType RType.nil = .ok (str "<nil>") ∧
    str "<nil>" ≠ [] ∧
    Register ⟨.mk [] [] .Invalid⟩ pointRegistry = (.error Panic.InvalidType, pointRegistry) ∧
    RegisterName (str "x") RType.nil pointRegistry
      = (.error Panic.InvalidType, pointRegistry) :=
  Register_invalid pointRegistry (str "x") RType.nil ⟨.mk [] [] .Invalid⟩
    (by decide) (by decide) (by decide)

/-- C9. For a value of type `T`, `Register(value)` is `RegisterName(GetNameByType(T), T)`: it
leaves the same registry and fails the same way, and when it returns it returns
`GetNameByType(T)`, after which the identifier of `T` is the CRC-32/IEEE
checksum of that name. `T` ranges over the types `reflect` hands out. -/
theorem Register_canonical (i : Any) (r : Registry) (hwf : (TypeOf i).WellFormed = true) :
    ∃ name, GetNameByType (TypeOf i) = .ok name ∧
      (Register i r).2 = (RegisterName name (TypeOf i) r).2 ∧
      (Register i r).1 = (RegisterName name (TypeOf i) r).1.map (fun _ => name) ∧
      (∀ n, (Register i r).1 = .ok n →
        n = name ∧ (Register i r).2.type2name (TypeOf i) = some (Checksum name)) := by
  obtain ⟨s, hs⟩ := getName_ok (TypeOf i) hwf
  have hg : GetNameByType (TypeOf i) = .ok s := hs
  have e1 : Register i r = ((RegisterName s (TypeOf i) r).1.map (fun _ => s),
      (RegisterName s (TypeOf i) r).2) := registerType_eq r (TypeOf i) s hg
  refine ⟨s, hg, ?_, ?_, ?_⟩
  · rw [e1]
  · rw [e1]
  · intro n hn
    rw [e1] at hn ⊢
    simp only at hn ⊢
    rcases RegisterName_cases r s (TypeOf i) with ⟨e, h⟩ | ⟨_, _, _, _, h⟩
    · rw [h] at hn; cases hn
    · rw [h] at hn ⊢
      simp only [Except.map, Except.ok.injEq] at hn
      exact ⟨hn.symm, by simp [Registry.insert, newNameType, crc]⟩

theorem Register_canonical_witness :
    ∃ name, GetNameByType (TypeOf ⟨pointType⟩) = .ok name ∧
      (Register ⟨pointType⟩ Registry.empty).2
        = (RegisterName name (TypeOf ⟨pointType⟩) Registry.empty).2 ∧
      (Register ⟨pointType⟩ Registry.empty).1
        = (RegisterName name (TypeOf ⟨pointType⟩) Registry.empty).1.map (fun _ => name) ∧
      (∀ n, (Register ⟨pointType⟩ Registry.empty).1 = .ok n →
        n = name ∧ (Register ⟨pointType⟩ Registry.empty).2.type2name (TypeOf ⟨pointType⟩)
          = some (Checksum name)) :=
  Register_canonical ⟨pointType⟩ Registry.empty pointType_wellFormed

/-- C10. For every unnamed struct type, `GetNameByType` returns `struct {}` when the struct has
no field and otherwise `struct { `, the field renderings joined by `; `, and
` }`, where an embedded field renders as the signature of its type and any
other field as its name, a space and the signature of its type (a field type
that fails to render fails the struct the same way; the field types `reflect`
hands out all render). The struct with the fields `Name string` and `Age int`
renders as `struct { Name string; Age int }`. -/
theorem struct_rendering (pkgPath : Bytes) (fs : Fields) :
    GetNameByType (.mk pkgPath [] (.Struct fs)) = structRendering fs.toList ∧
    (fs.WellFormed = true → ∃ rs, fs.toList.mapM fieldRendering = .ok rs ∧
      GetNameByType (.mk pkgPath [] (.Struct fs)) =
        .ok (if fs.NumField = 0 then str "struct \x7b\x7d"
             else str "struct \x7b " ++ List.intercalate (str "; ") rs ++ str " \x7d")) ∧
    GetNameByType (.mk pkgPath [] (.Struct .nil)) = .ok (str "struct \x7b\x7d") ∧
    GetNameByType personType = .ok (str "struct \x7b Name string; Age int \x7d") ∧
    GetNameByType (.mk [] [] (.Struct (.cons (str "Point") true pointType
        (.cons (str "Age") false intType .nil))))
      = .ok (str "struct \x7b pkg.Point; Age int \x7d") := by
  have main : GetNameByType (.mk pkgPath [] (.Struct fs)) = structRendering fs.toList := by
    have h1 : str "struct \x7b" ++ str "\x7d" = str "struct \x7b\x7d" := by decide
    have h2 : ∀ b : Bytes, str "struct \x7b" ++ str " " ++ b = str "struct \x7b " ++ b := by
      intro b; rfl
    have h3 : str " " ++ str "\x7d" = str " \x7d" := by decide
    have he := (getNameFields_extends fs)
      (if fs.NumField > 0 then [] ++ str "struct \x7b" ++ str " " else [] ++ str "struct \x7b")
    simp only at he
    simp only [GetNameByType, getName, Shape.Kind, reduceCtorEq, if_false, if_true, he,
      getNameFields_rendering fs, structRendering]
    cases hm : fs.toList.mapM fieldRendering with
    | error e => rfl
    | ok rs =>
      have hlen := mapM_ok_length _ _ _ hm
      simp only [Except.map, Except.ok.injEq]
      cases rs with
      | nil =>
        have : fs.toList.length = 0 := by simpa using hlen.symm
        simp [Fields.NumField, this, h1]
      | cons y ys =>
        have : fs.toList.length ≠ 0 := by
          simp only [← hlen, List.length_cons]; omega
        have hpos : fs.toList.length > 0 := Nat.pos_of_ne_zero this
        simp only [Fields.NumField, hpos, this, if_true, if_false, List.nil_append,
          reduceCtorEq, List.append_assoc, h3]
        rw [← List.append_assoc, h2]
  refine ⟨main, ?_, rfl, by decide, by decide⟩
  intro hwf
  obtain ⟨s, hs⟩ := getName_ok (.mk pkgPath [] (.Struct fs))
    (by simpa [RType.WellFormed, Shape.WellFormed] using hwf)
  have hs2 : GetNameByType (.mk pkgPath [] (.Struct fs)) = .ok s := hs
  rw [main] at hs2 ⊢
  unfold structRendering at hs2 ⊢
  cases hm : fs.toList.mapM fieldRendering with
  | error e => rw [hm] at hs2; cases hs2
  | ok rs => exact ⟨rs, rfl, rfl⟩

theorem struct_rendering_witness :
    ∃ rs, [(str "Name", false, stringType), (str "Age", false, intType)].mapM fieldRendering
        = .ok rs ∧
      GetNameByType personType =
        .ok (if 2 = 0 then str "struct \x7b\x7d"
             else str "struct \x7b " ++ List.intercalate (str "; ") rs ++ str " \x7d") :=
  (struct_rendering [] (.cons (str "Name") false stringType
    (.cons (str "Age") false intType .nil))).2.1 (by decide)

/-- C11. For every valid type descriptor with a non-empty declared name, of whatever kind,
`GetNameByType` returns the name when the package path is empty and the package
path, a dot and the name otherwise; the result is the same for every other
valid shape under the same name. -/
theorem named_rendering (pkgPath name : Bytes) (shape shape2 : Shape)
    (hn : name ≠ []) (hv : shape.Kind ≠ Kind.Invalid) (hv2 : shape2.Kind ≠ Kind.Invalid) :
    GetNameByType (.mk pkgPath name shape)
      = .ok (if pkgPath = [] then name else pkgPath ++ str "." ++ name) ∧
    GetNameByType (.mk [] name shape) = .ok name ∧
    GetNameByType (.mk pkgPath name shape2) = GetNameByType (.mk pkgPath name shape) := by
  refine ⟨?_, ?_, ?_⟩
  · rw [GetNameByType, getName_named _ _ _ _ hn hv, appendQualified]
    split <;> simp
  · rw [GetNameByType, getName_named _ _ _ _ hn hv, appendQualified]
    simp
  · rw [GetNameByType, GetNameByType, getName_named _ _ _ _ hn hv,
      getName_named _ _ _ _ hn hv2]

theorem named_rendering_witness :
    GetNameByType pointType = .ok (str "pkg.Point") ∧
    GetNameByType intType = .ok (str "int") ∧
    GetNameByType (.mk (str "pkg") (str "Point") (.Ptr intType)) = GetNameByType pointType :=
  have h := named_rendering (str "pkg") (str "Point")
    (.Struct (.cons (str "X") false intType (.cons (str "Y") false intType .nil)))
    (.Ptr intType) (by decide) (by decide) (by decide)
  have h2 := named_rendering [] (str "int") (.Scalar .Int) (.Scalar .Int)
    (by decide) (by decide) (by decide)
  ⟨h.1, h2.2.1, h.2.2⟩

/-- C14. For all types `E`, `K`, `V` and every length `N`, with `sig = GetNameByType`: the unnamed
pointer to `E` renders as `*` and `sig(E)`, the unnamed array of `N` elements
of `E` as `[`, the decimal digits of `N`, `]` and `sig(E)`, the unnamed slice of
`E` as `[]` and `sig(E)`, and the unnamed map from `K` to `V` as `map[`,
`sig(K)`, `]` and `sig(V)` (a constituent that fails to render fails the whole);
`map[string][]*pkg.T` is the rendering of that type. -/
theorem wrapper_rendering (pkgPath : Bytes) (E K V : RType) (N : Nat) :
    GetNameByType (.mk pkgPath [] (.Ptr E))
      = (GetNameByType E).map (fun s => str "*" ++ s) ∧
    GetNameByType (.mk pkgPath [] (.Array N E))
      = (GetNameByType E).map (fun s => str "[" ++ Itoa N ++ str "]" ++ s) ∧
    Itoa N = (Nat.repr N).toList.map Char.toNat ∧
    GetNameByType (.mk pkgPath [] (.Slice E))
      = (GetNameByType E).map (fun s => str "[]" ++ s) ∧
    GetNameByType (.mk pkgPath [] (.Map K V))
      = (match GetNameByType K with
         | .error e => .error e
         | .ok k => (GetNameByType V).map (fun v => str "map[" ++ k ++ str "]" ++ v)) ∧
    GetNameByType mapStringSlicePtrT = .ok (str "map[string][]*pkg.T") ∧
    GetNameByType (.mk [] [] (.Array 16 intType)) = .ok (str "[16]int") := by
  have hE := getName_extends E
  refine ⟨?_, ?_, rfl, ?_, ?_, by decide, by decide⟩
  · simp only [GetNameByType, getName, Shape.Kind, reduceCtorEq, if_false, if_true,
      List.nil_append]
    exact hE (str "*")
  · simp only [GetNameByType, getName, Shape.Kind, reduceCtorEq, if_false, if_true,
      List.nil_append]
    have := hE (str "[" ++ Itoa N ++ str "]")
    simpa using this
  · simp only [GetNameByType, getName, Shape.Kind, reduceCtorEq, if_false, if_true,
      List.nil_append]
    exact hE (str "[]")
  · simp only [GetNameByType, getName, Shape.Kind, reduceCtorEq, if_false, if_true,
      List.nil_append]
    have hK := getName_extends K (str "map[")
    simp only at hK
    rw [hK]
    cases getName [] K with
    | error e => rfl
    | ok k =>
      simp only [Except.map]
      have hV := getName_extends V (str "map[" ++ k ++ str "]")
      simp only at hV
      rw [hV]
      cases getName [] V <;> simp [Except.map]

/-- C18. For every buffer `p` and every type `rt`, the nil type included, `getName(p, rt)` is
`p` followed by what `getName` appends to the empty buffer: the bytes of `p` are
kept, and the signature appended is `GetNameByType(rt)` whatever `p` is (a
failure does not depend on `p` either). -/
theorem getName_buffer_law (p : Bytes) (rt : RType) :
    getName p rt = (getName [] rt).map (fun s => p ++ s) ∧
    (∀ s, GetNameByType rt = .ok s → getName p rt = .ok (p ++ s)) ∧
    (∀ e, GetNameByType rt = .error e → getName p rt = .error e) ∧
    (∀ s, getName p rt = .ok s → p <+: s) ∧
    getName p RType.nil = .ok (p ++ str "<nil>") := by
  have h := getName_extends rt p
  simp only at h
  refine ⟨h, ?_, ?_, ?_, ?_⟩
  · intro s hs
    rw [h, ← GetNameByType, hs]; rfl
  · intro e he
    rw [h, ← GetNameByType, he]; rfl
  · intro s hs
    exact (getName_extends rt).isPrefix hs
  · simp [getName]

theorem getName_buffer_law_witness :
    getName (str "map[") personType
      = .ok (str "map[" ++ str "struct \x7b Name string; Age int \x7d") ∧
    str "map[" <+: str "map[struct \x7b Name string; Age int \x7d" :=
  ⟨(getName_buffer_law (str "map[") personType).2.1 _ (by decide),
   (getName_buffer_law (str "map[") personType).2.2.2.1 _ (by decide)⟩

/-- C20. An unnamed valid type of a kind that the `switch` of `getName` does not handle, with
the empty package path that unnamed types have, makes `getName` append nothing:
`GetNameByType` returns the empty string and `Register` on a value of that type
fails with `EmptyName` and leaves the registry as it was. So the slices of two
different channel types are different types with the same canonical name. -/
theorem unhandled_kind_rendering (pfx : Bytes) (shape : Shape) (r : Registry)
    (hv : shape.Kind ≠ Kind.Invalid) (hk : shape.Kind ∉ handledKinds) :
    getName pfx (.mk [] [] shape) = .ok pfx ∧
    GetNameByType (.mk [] [] shape) = .ok (str "") ∧
    Register ⟨.mk [] [] shape⟩ r = (.error Panic.EmptyName, r) ∧
    GetNameByType chanInt = .ok (str "") ∧
    RType.mk [] [] (.Slice chanInt) ≠ RType.mk [] [] (.Slice chanString) ∧
    GetNameByType (.mk [] [] (.Slice chanInt)) = .ok (str "[]") ∧
    GetNameByType (.mk [] [] (.Slice chanString)) = .ok (str "[]") := by
  have h := getName_unhandled pfx [] shape hv hk
  have h0 := getName_unhandled [] [] shape hv hk
  refine ⟨?_, ?_, ?_, by decide, by decide, by decide, by decide⟩
  · simpa [appendQualified] using h
  · simpa [appendQualified, GetNameByType, str] using h0
  · have hg : GetNameByType (.mk [] [] shape) = .ok [] := by
      simpa [appendQualified, GetNameByType] using h0
    simp [Register, TypeOf, registerType, hg, RegisterName]

theorem unhandled_kind_rendering_witness :
    getName (str "[]") chanInt = .ok (str "[]") ∧
    GetNameByType chanInt = .ok (str "") ∧
    Register ⟨chanInt⟩ pointRegistry = (.error Panic.EmptyName, pointRegistry) :=
  have h := unhandled_kind_rendering (str "[]") (.Chan intType) pointRegistry
    (by decide) (by decide)
  ⟨h.1, h.2.1, h.2.2.1⟩

/-- C12. For every unnamed interface type each of whose methods has an unnamed function type,
`GetNameByType` returns `interface {}` when there is no method and otherwise
`interface { `, the method renderings joined by `; `, and ` }`, where a method
renders as its name followed by the rendering of its function type without the
leading `func` (a method type that fails to render fails the interface the
same way; the method types `reflect` hands out all render). A method `Read`
taking `[]uint8` and returning `int` and `error` renders as
`Read([]uint8) (int, error)`. -/
theorem interface_rendering (pkgPath : Bytes) (ms : Methods)
    (hall : ∀ m ∈ ms.toList, isUnnamedFunc m.2 = true) :
    GetNameByType (.mk pkgPath [] (.Interface ms)) = interfaceRendering ms.toList ∧
    (ms.WellFormed = true → ∃ rs, ms.toList.mapM methodRendering = .ok rs ∧
      GetNameByType (.mk pkgPath [] (.Interface ms)) =
        .ok (if ms.NumMethod = 0 then str "interface \x7b\x7d"
             else str "interface \x7b " ++ List.intercalate (str "; ") rs ++ str " \x7d")) ∧
    GetNameByType (.mk pkgPath [] (.Interface .nil)) = .ok (str "interface \x7b\x7d") ∧
    methodRendering (str "Read", readFuncType) = .ok (str "Read([]uint8) (int, error)") ∧
    GetNameByType readerType
      = .ok (str "interface \x7b Read([]uint8) (int, error) \x7d") := by
  have main := getName_interface_rendering pkgPath ms hall
  refine ⟨main, ?_, rfl, by decide, by decide⟩
  intro hwf
  obtain ⟨s, hs⟩ := getName_ok (.mk pkgPath [] (.Interface ms))
    (by simpa [RType.WellFormed, Shape.WellFormed] using hwf)
  rw [GetNameByType, main]
  rw [main] at hs
  unfold interfaceRendering at hs ⊢
  cases hm : ms.toList.mapM methodRendering with
  | error e => rw [hm] at hs; cases hs
  | ok rs => exact ⟨rs, rfl, rfl⟩

theorem interface_rendering_witness :
    GetNameByType readerType = interfaceRendering [(str "Read", readFuncType)] ∧
    interfaceRendering [(str "Read", readFuncType)]
      = .ok (str "interface \x7b Read([]uint8) (int, error) \x7d") :=
  have h := interface_rendering [] (.cons (str "Read") readFuncType .nil)
    (by intro m hm
        simp only [Methods.toList, List.mem_singleton] at hm
        subst hm
        rfl)
  ⟨h.1, h.1 ▸ h.2.2.2.2⟩

/-- C13. For every unnamed function type, `GetNameByType` returns `func(`, the parameter
signatures joined by `, `, and `)`, followed by nothing when there is no result,
by a space and the signature of the result when there is one, and by a space
and the result signatures joined by `, ` inside parentheses when there are more
(a parameter or result type that fails to render fails the function type the
same way; the types `reflect` hands out all render). -/
theorem func_rendering (pkgPath : Bytes) (ins outs : Types) :
    GetNameByType (.mk pkgPath [] (.Func ins outs))
      = funcRendering ins.toList outs.toList ∧
    (ins.WellFormed = true → outs.WellFormed = true →
      ∃ ps rs, ins.toList.mapM GetNameByType = .ok ps ∧
        outs.toList.mapM GetNameByType = .ok rs ∧
        GetNameByType (.mk pkgPath [] (.Func ins outs)) =
          .ok (str "func(" ++ List.intercalate (str ", ") ps ++ str ")" ++
            (match rs with
             | [] => []
             | [r] => str " " ++ r
             | _ => str " (" ++ List.intercalate (str ", ") rs ++ str ")"))) ∧
    GetNameByType (.mk pkgPath [] (.Func .nil .nil)) = .ok (str "func()") ∧
    GetNameByType (.mk [] [] (.Func (.cons intType (.cons stringType .nil))
      (.cons intType .nil))) = .ok (str "func(int, string) int") ∧
    GetNameByType readFuncType = .ok (str "func([]uint8) (int, error)") := by
  have main := getName_func_rendering pkgPath ins outs
  refine ⟨main, ?_, rfl, by decide, by decide⟩
  intro hi ho
  obtain ⟨s, hs⟩ := getName_ok (.mk pkgPath [] (.Func ins outs))
    (by simp [RType.WellFormed, Shape.WellFormed, hi, ho])
  rw [GetNameByType, main]
  rw [main] at hs
  unfold funcRendering at hs ⊢
  cases hm : ins.toList.mapM GetNameByType with
  | error e => rw [hm] at hs; cases hs
  | ok ps =>
    rw [hm] at hs
    cases hr : outs.toList.mapM GetNameByType with
    | error e => rw [hr] at hs; cases hs
    | ok rs => exact ⟨ps, rs, rfl, rfl, rfl⟩

theorem func_rendering_witness :
    ∃ ps rs, [.mk [] [] (.Slice uint8Type)].mapM GetNameByType = .ok ps ∧
      [intType, errorType].mapM GetNameByType = .ok rs ∧
      GetNameByType readFuncType =
        .ok (str "func(" ++ List.intercalate (str ", ") ps ++ str ")" ++
          (match rs with
           | [] => []
           | [r] => str " " ++ r
           | _ => str " (" ++ List.intercalate (str ", ") rs ++ str ")")) :=
  (func_rendering [] (.cons (.mk [] [] (.Slice uint8Type)) .nil)
    (.cons intType (.cons errorType .nil))).2.1 (by decide) (by decide)

/-- C19. The rendering of an unnamed function type from an empty buffer starts with the five
bytes `func(` and has at least six bytes, so `fn[4:]` is in bounds and removes
exactly the bytes `func`; an interface type whose method types are unnamed
function types that render is rendered without a slice out of range, as is
every type `reflect` hands out; whereas a method type that renders to fewer
than four bytes, such as a named type called `int`, makes the slice
expression panic. -/
theorem slice_in_bounds (t : RType) (fn : Bytes) (ht : isUnnamedFunc t = true)
    (h : GetNameByType t = .ok fn) :
    str "func(" <+: fn ∧ 6 ≤ fn.length ∧ ¬ fn.length < 4 ∧ fn = str "func" ++ fn.drop 4 ∧
    (∀ (pkgPath : Bytes) (ms : Methods),
      (∀ m ∈ ms.toList, isUnnamedFunc m.2 = true ∧ ∃ s, GetNameByType m.2 = .ok s) →
      ∃ s, GetNameByType (.mk pkgPath [] (.Interface ms)) = .ok s) ∧
    (∀ rt : RType, rt.WellFormed = true → ∃ s, GetNameByType rt = .ok s) ∧
    (∀ (pfx mname fn2 : Bytes) (typ : RType) (rest : Methods),
      GetNameByType typ = .ok fn2 → fn2.length < 4 →
      getNameMethods pfx (.cons mname typ rest) = .error Panic.SliceBounds) ∧
    GetNameByType badInterface = .error Panic.SliceBounds := by
  obtain ⟨tail, hfn, htail⟩ := unnamedFunc_shape t fn ht h
  have h5 : (str "func(").length = 5 := by decide
  refine ⟨⟨tail, hfn.symm⟩, ?_, ?_, ?_, ?_, ?_, ?_, by decide⟩
  · rw [hfn, List.length_append, h5]; omega
  · rw [hfn, List.length_append, h5]; omega
  · rw [hfn]; rfl
  · intro pkgPath ms hms
    rw [GetNameByType, getName_interface_rendering pkgPath ms (fun m hm => (hms m hm).1)]
    obtain ⟨rs, hrs⟩ := mapM_ok_of_forall methodRendering ms.toList (by
      intro m hm
      obtain ⟨s, hs⟩ := (hms m hm).2
      refine ⟨m.1 ++ removeFunc s, ?_⟩
      rw [methodRendering, hs])
    rw [interfaceRendering, hrs]
    exact ⟨_, rfl⟩
  · intro rt hwf
    exact getName_ok rt hwf
  · intro pfx mname fn2 typ rest hfn2 hlt
    rw [GetNameByType] at hfn2
    simp [getNameMethods, hfn2, hlt]

theorem slice_in_bounds_witness :
    str "func(" <+: str "func([]uint8) (int, error)" ∧
    6 ≤ (str "func([]uint8) (int, error)").length ∧
    (∃ s, GetNameByType readerType = .ok s) ∧
    getNameMethods [] (.cons (str "M") intType .nil) = .error Panic.SliceBounds :=
  have h := slice_in_bounds readFuncType (str "func([]uint8) (int, error)") rfl (by decide)
  ⟨h.1, h.2.1,
   h.2.2.2.2.1 [] (.cons (str "Read") readFuncType .nil) (by
     intro m hm
     simp only [Methods.toList, List.mem_singleton] at hm
     subst hm
     exact ⟨rfl, str "func([]uint8) (int, error)", by decide⟩),
   h.2.2.2.2.2.2.1 [] (str "M") (str "int") intType .nil (by decide) (by decide)⟩

/-- C15, as stated, fails: the non-empty name `pkg.cROLLf` has checksum 0, which is
`defaultNameType`, and registering a type under it on the empty registry
succeeds and makes 0 a key of `name2type` and a value of `type2name`. -/
theorem identifier_zero_assigned :
    zeroName ≠ [] ∧ newNameType zeroName = defaultNameType ∧
    Reachable ((Call.RegisterName zeroName pointType).run Registry.empty) ∧
    (RegisterName zeroName pointType Registry.empty).1 = .ok () ∧
    ((Call.RegisterName zeroName pointType).run Registry.empty).name2type 0
      = some pointType ∧
    ((Call.RegisterName zeroName pointType).run Registry.empty).type2name pointType
      = some 0 := by
  have hok := RegisterName_ok_eq Registry.empty zeroName pointType (by decide) (by decide)
    rfl rfl
  have hz : newNameType zeroName = 0 := crc_zeroName
  refine ⟨by decide, hz, Reachable.step _ _ Reachable.empty, ?_, ?_, ?_⟩
  · rw [hok]
  · simp [Call.run, hok, hz, Registry.insert]
  · simp [Call.run, hok, hz, Registry.insert]

/-- C15, amended. Identifier 0 is not guarded: a successful `RegisterName(name, rt)`
assigns the checksum of the name, so after it 0 maps to `rt` exactly when the
checksum of the name is 0. In every registry reached from the empty one by
calls none of which registers under a name of checksum 0, 0 is neither a key of
`name2type` nor a value of `type2name`. -/
theorem identifier_zero_unguarded (r : Registry) (h : ReachableNonzero r) :
    r.name2type 0 = none ∧ (∀ T, r.type2name T ≠ some 0) ∧
    (∀ name rt, (RegisterName name rt r).1 = .ok () →
      (RegisterName name rt r).2.type2name rt = some (Checksum name) ∧
      ((RegisterName name rt r).2.name2type 0 = some rt ↔ Checksum name = 0)) := by
  have hz := h.zeroFree
  refine ⟨hz.1, hz.2, ?_⟩
  intro name rt hok
  rcases RegisterName_cases r name rt with ⟨e, he⟩ | ⟨_, _, _, _, hins⟩
  · rw [he] at hok; cases hok
  · rw [hins]
    simp only [Registry.insert, Function.update_same, newNameType, crc,
      Function.update_apply, true_and]
    constructor
    · intro h0
      by_contra hne
      rw [if_neg (Ne.symm hne), hz.1] at h0
      cases h0
    · intro h0
      rw [if_pos h0.symm]

theorem identifier_zero_unguarded_witness :
    pointRegistry.name2type 0 = none ∧ (∀ T, pointRegistry.type2name T ≠ some 0) ∧
    ((RegisterName zeroName intType pointRegistry).2.name2type 0 = some intType ↔
      Checksum zeroName = 0) :=
  have h := identifier_zero_unguarded pointRegistry pointRegistry_reachableNonzero
  ⟨h.1, h.2.1, (h.2.2 zeroName intType (by decide)).2⟩

/-- C16, as stated, fails: a pointer is not a base case of the recursion. On `*int` the
recursion does not fit in one activation of `getName` and fits in two, and
what is appended depends on the element type. -/
theorem pointer_not_base_case :
    getNameBounded 1 [] ptrInt = none ∧
    getNameBounded 2 [] ptrInt = some (.ok (str "*int")) ∧
    getNameBounded 1 [] intType = some (.ok (str "int")) ∧
    GetNameByType ptrInt ≠ GetNameByType ptrString := by
  decide

/-- C16, amended. The function `getName` terminates on every type descriptor: with a recursion
depth of `signatureDepth` it returns the result of `getName`, and for the types
`reflect` hands out no smaller depth is enough. The base cases are the nil
type, invalid types, named types (whatever their constituents, which is where
a self-referential type is cut) and unnamed types of an unhandled kind; an
unnamed pointer adds one level to the depth of its element. -/
theorem getName_recursion_depth (t : RType) (pfx : Bytes) (n : Nat) :
    (t.signatureDepth ≤ n → getNameBounded n pfx t = some (getName pfx t)) ∧
    (t.WellFormed = true → n < t.signatureDepth → getNameBounded n pfx t = none) ∧
    getNameBounded t.signatureDepth pfx t = some (getName pfx t) ∧
    (∀ (pkgPath name : Bytes) (shape : Shape), name ≠ [] →
      getNameBounded 1 pfx (.mk pkgPath name shape)
        = some (getName pfx (.mk pkgPath name shape))) ∧
    getNameBounded 1 pfx RType.nil = some (getName pfx RType.nil) ∧
    (∀ (pkgPath : Bytes) (E : RType),
      (RType.mk pkgPath [] (.Ptr E)).signatureDepth = 1 + E.signatureDepth) := by
  refine ⟨getNameBounded_of_le t n pfx, getNameBounded_of_lt t n pfx,
    getNameBounded_of_le t _ pfx (Nat.le_refl _), ?_, ?_, ?_⟩
  · intro pkgPath name shape hn
    apply getNameBounded_of_le
    cases shape <;> simp only [RType.signatureDepth, hn, if_false] <;> split <;> omega
  · exact getNameBounded_of_le _ _ _ (by simp [RType.signatureDepth])
  · intro pkgPath E
    simp [RType.signatureDepth, Shape.Kind]

theorem getName_recursion_depth_witness :
    getNameBounded 4 [] readerType = some (getName [] readerType) ∧
    getNameBounded 3 [] readerType = none ∧
    getNameBounded 1 [] pointType = some (getName [] pointType) :=
  ⟨(getName_recursion_depth readerType [] 4).1 (by decide),
   (getName_recursion_depth readerType [] 3).2.1 (by decide) (by decide),
   (getName_recursion_depth readerType [] 0).2.2.2.1 (str "pkg") (str "Point") _ (by decide)⟩

/-- C17. For every 32-bit identifier and every encoder buffer, `encNameType` appends exactly
four bytes, and `decNameType` on a decoder positioned at those bytes returns the
identifier and advances the read cursor by four, leaving the buffer as it
was. -/
theorem nameType_codec (e : Encoder) (id : Nat) (hid : id < 2 ^ 32) :
    ∃ bs : Bytes, bs.length = 4 ∧ (e.encNameType id).buf = e.buf ++ bs ∧
      (∀ b ∈ bs, b < 256) ∧
      ∀ before after : Bytes,
        decNameType { buf := before ++ bs ++ after, index := before.length }
          = some (id, { buf := before ++ bs ++ after, index := before.length + 4 }) := by
  refine ⟨[id % 256, id / 256 % 256, id / 65536 % 256, id / 16777216 % 256],
    rfl, ?_, ?_, ?_⟩
  · simp only [Encoder.encNameType, Encoder.encUint32]
    rw [Nat.mod_eq_of_lt hid]
  · intro b hb
    simp only [List.mem_cons, List.mem_singleton, List.not_mem_nil, or_false] at hb
    rcases hb with h | h | h | h <;> subst h <;> omega
  · intro before after
    simp only [decNameType, Decoder.decUint32, List.append_assoc, List.drop_left,
      List.cons_append, List.nil_append]
    congr 2
    omega

theorem nameType_codec_witness :
    ∃ bs : Bytes, bs.length = 4 ∧
      (Encoder.encNameType ⟨[1, 2]⟩ 0x58da5686).buf = [1, 2] ++ bs ∧
      (∀ b ∈ bs, b < 256) ∧
      ∀ before after : Bytes,
        decNameType { buf := before ++ bs ++ after, index := before.length }
          = some (0x58da5686,
              { buf := before ++ bs ++ after, index := before.length + 4 }) :=
  nameType_codec ⟨[1, 2]⟩ 0x58da5686 (by decide)

end Gotiny
